import Mathlib

/-!
# Verification development for `cmd/api.go`

A shallow embedding of the regular-expression router (`newRoute`, `routes`, `Serve`)
and of the barcode handler (`getBarcode`) of the barcode HTTP function, together with
the parts of the Go standard library the code relies on (`strconv.Atoi`, `fmt.Sprintf`
with `%d` and `%s`, `regexp`, the `net/http` response writer).

Conventions of the model:

* Go `string`s are `List Char` (valid UTF-8 text); `len` is the length of the UTF-8
  encoding in bytes. Go `int` is the 64-bit signed integer, an `Int` with explicit
  wrap-around where the source can overflow.
* `regexp` is a parser of the pattern text into an expression and a matcher that lists
  the matches in the order a backtracking search finds them (leftmost-first). The parser
  covers literals, `.`, `^`, `$`, classes, groups, `|`, `*`, `+`, `?` and quoted
  punctuation, and rejects any other syntax.
* A handler transforms a `World`: the response writer, the log of the calls made to the
  barcode and image packages, and a flag for a run-time panic. The packages themselves
  are parameters (`Collaborators`).
* `Serve` takes the route table as an argument and returns, next to the resulting
  `World`, the list of the handler invocations it made.
-/

namespace Api

/-! ## `strconv` -/

namespace strconv

/-- The two error kinds `strconv` reports (`ErrSyntax`, `ErrRange`). -/
inductive NumError where
  | ErrSyntax
  | ErrRange
  deriving DecidableEq, Repr

/-- Size of Go `int` in bits (`strconv.IntSize`) on the 64-bit target. -/
def intSize : Nat := 64

/-- Constant `maxUint64` of `strconv`. -/
def maxUint64 : Nat := 2 ^ 64 - 1

/-- Go `len(s)`: number of bytes of the UTF-8 encoding. -/
def len (s : List Char) : Nat := (s.map Char.utf8Size).sum

/-- Test `'0' <= c && c <= '9'` (every byte of a non-ASCII character fails it). -/
def isDigit (c : Char) : Bool := decide (48 ≤ c.toNat) && decide (c.toNat ≤ 57)

/-- Conversion `int64(un)` of an unsigned 64-bit value, and 64-bit wrap-around in general. -/
def wrap64 (x : Int) : Int := (x + 2 ^ 63) % 2 ^ 64 - 2 ^ 63

/-- The digit loop of `ParseUint` for base 10: a byte that is not a decimal digit is a
syntax error (letters give a digit `>= base`, `_` is only legal for base 0); an overflow
is reported at once, before the remaining bytes are looked at. -/
def ParseUintLoop (cutoff maxVal : Nat) : List Char → Nat → Nat × Option NumError
  | [], n => (n, none)
  | c :: cs, n =>
    if isDigit c = false then (0, some NumError.ErrSyntax)
    else
      let d := c.toNat - 48
      if n ≥ cutoff then (maxVal, some NumError.ErrRange)
      else
        let n10 := (n * 10) % 2 ^ 64
        let n1 := (n10 + d) % 2 ^ 64
        if n1 < n10 ∨ n1 > maxVal then (maxVal, some NumError.ErrRange)
        else ParseUintLoop cutoff maxVal cs n1

/-- Model of `strconv.ParseUint(s, 10, 0)`. -/
def ParseUint (s : List Char) : Nat × Option NumError :=
  if s = [] then (0, some NumError.ErrSyntax)
  else ParseUintLoop (maxUint64 / 10 + 1) (2 ^ intSize - 1) s 0

/-- Model of `strconv.ParseInt(s, 10, 0)`: the value is clamped to the nearest bound of
`int` when it is out of range. -/
def ParseInt (s : List Char) : Int × Option NumError :=
  match s with
  | [] => (0, some NumError.ErrSyntax)
  | c :: cs =>
    let neg : Bool := decide (c = '-')
    let s1 := if c = '+' ∨ c = '-' then cs else c :: cs
    let un := (ParseUint s1).1
    let err := (ParseUint s1).2
    if err = some NumError.ErrSyntax then (0, err)
    else
      let cutoff : Nat := 2 ^ (intSize - 1)
      if neg = false ∧ un ≥ cutoff then (((cutoff - 1 : Nat) : Int), some NumError.ErrRange)
      else if neg = true ∧ un > cutoff then (-((cutoff : Nat) : Int), some NumError.ErrRange)
      else
        let n := wrap64 (un : Int)
        (if neg then wrap64 (-n) else n, none)

/-- The digit loop of the fast path of `Atoi`; `none` is the syntax error. -/
def AtoiFast : List Char → Int → Option Int
  | [], n => some n
  | c :: cs, n => if isDigit c = false then none else AtoiFast cs (n * 10 + ((c.toNat - 48 : Nat) : Int))

/-- Model of `strconv.Atoi`: returns the value together with the error (if any), as the
Go function does. -/
def Atoi (s : List Char) : Int × Option NumError :=
  let sLen := len s
  if (intSize = 32 ∧ 0 < sLen ∧ sLen < 10) ∨ (intSize = 64 ∧ 0 < sLen ∧ sLen < 19) then
    match s with
    | [] => (0, some NumError.ErrSyntax)
    | c :: cs =>
      let digits := if c = '-' ∨ c = '+' then cs else c :: cs
      if len digits < 1 then (0, some NumError.ErrSyntax)
      else
        match AtoiFast digits 0 with
        | none => (0, some NumError.ErrSyntax)
        | some n => (if c = '-' then -n else n, none)
  else
    ParseInt s

end strconv

/-! ## `fmt` -/

/-- The verb `%d` of `fmt.Sprintf` applied to an `int`: decimal digits, with a leading
minus sign for negative values. -/
def fmtInt : Int → List Char
  | Int.ofNat n => Nat.toDigits 10 n
  | Int.negSucc n => '-' :: Nat.toDigits 10 (n + 1)

/-! ## `regexp` -/

namespace regexp

/-- Parsed regular expression (the operators of `regexp/syntax` that the supported
pattern language produces). Capture groups carry their number, counted from 1 in the
order of their opening parentheses. -/
inductive Expr where
  | emptyMatch : Expr
  | literal : Char → Expr
  | anyCharNotNL : Expr
  | charClass : Bool → List (Char × Char) → Expr
  | beginText : Expr
  | endText : Expr
  | capture : Nat → Expr → Expr
  | star : Expr → Expr
  | plus : Expr → Expr
  | quest : Expr → Expr
  | concat : Expr → Expr → Expr
  | alternate : Expr → Expr → Expr
  deriving DecidableEq, Repr

/-- A compiled regular expression: the expression and its number of capture groups. -/
structure Regexp where
  expr : Expr
  numSubexp : Nat
  deriving DecidableEq, Repr

/-- Concatenation of a sequence of expressions. -/
def mkConcat : List Expr → Expr
  | [] => Expr.emptyMatch
  | [e] => e
  | e :: es => Expr.concat e (mkConcat es)

/-- Alternation of a non-empty sequence of expressions, first alternative first. -/
def mkAlternate : List Expr → Expr
  | [] => Expr.emptyMatch
  | [e] => e
  | e :: es => Expr.alternate e (mkAlternate es)

/-- One open group of the parser: the alternatives already closed by `|`, the items of
the current concatenation (latest first) and the capture number (0 for the top level). -/
structure Frame where
  alts : List Expr
  cur : List Expr
  cap : Nat
  deriving DecidableEq, Repr

/-- The expression a frame stands for. -/
def Frame.close (f : Frame) : Expr :=
  mkAlternate (f.alts ++ [mkConcat f.cur.reverse])

/-- What the parser is in the middle of. -/
inductive Mode where
  | normal : Mode
  | escape : Mode
  | classStart : Mode
  | classBody (neg : Bool) (items : List (Char × Char)) : Mode
  | classLo (neg : Bool) (items : List (Char × Char)) (lo : Char) : Mode
  | classDash (neg : Bool) (items : List (Char × Char)) (lo : Char) : Mode
  deriving DecidableEq, Repr

/-- Parser state: the innermost frame, the enclosing frames, the number of capture groups
opened so far, whether the latest item is a repetition, and the mode. -/
structure Parser where
  top : Frame
  stack : List Frame
  ncap : Nat
  rep : Bool
  mode : Mode
  deriving DecidableEq, Repr

/-- Append an item to the current concatenation. -/
def Parser.push (p : Parser) (e : Expr) : Parser :=
  { p with top := { p.top with cur := e :: p.top.cur }, rep := false, mode := Mode.normal }

/-- Apply a repetition operator to the latest item; it is an error when there is none or
when the latest item is itself a repetition (this excludes the non-greedy forms). -/
def Parser.repeat (p : Parser) (op : Expr → Expr) : Option Parser :=
  match p.top.cur with
  | [] => none
  | e :: es => if p.rep then none else
      some { p with top := { p.top with cur := op e :: es }, rep := true }

/-- ASCII punctuation, the characters a backslash may quote. -/
def isPunct (c : Char) : Bool :=
  (decide (33 ≤ c.toNat) && decide (c.toNat ≤ 47)) || (decide (58 ≤ c.toNat) && decide (c.toNat ≤ 64)) ||
  (decide (91 ≤ c.toNat) && decide (c.toNat ≤ 96)) || (decide (123 ≤ c.toNat) && decide (c.toNat ≤ 126))

/-- One character of the pattern. Unsupported syntax (`{`, class escapes, flags, `]` or
a backslash inside a class) is rejected. -/
def Parser.step (p : Parser) (c : Char) : Option Parser :=
  match p.mode with
  | Mode.escape => if isPunct c then some (p.push (Expr.literal c)) else none
  | Mode.classStart =>
    if c = '^' then some { p with mode := Mode.classBody true [] }
    else if c = ']' ∨ c = '\\' then none
    else some { p with mode := Mode.classLo false [] c }
  | Mode.classBody neg items =>
    if c = ']' then (if items = [] then none else some (p.push (Expr.charClass neg items)))
    else if c = '\\' then none
    else some { p with mode := Mode.classLo neg items c }
  | Mode.classLo neg items lo =>
    if c = ']' then some (p.push (Expr.charClass neg (items ++ [(lo, lo)])))
    else if c = '\\' then none
    else if c = '-' then some { p with mode := Mode.classDash neg items lo }
    else some { p with mode := Mode.classLo neg (items ++ [(lo, lo)]) c }
  | Mode.classDash neg items lo =>
    if c = ']' then some (p.push (Expr.charClass neg (items ++ [(lo, lo), ('-', '-')])))
    else if c = '\\' then none
    else if lo.toNat ≤ c.toNat then some { p with mode := Mode.classBody neg (items ++ [(lo, c)]) }
    else none
  | Mode.normal =>
    if c = '(' then
      some { top := { alts := [], cur := [], cap := p.ncap + 1 }, stack := p.top :: p.stack,
             ncap := p.ncap + 1, rep := false, mode := Mode.normal }
    else if c = ')' then
      match p.stack with
      | [] => none
      | f :: fs =>
        some { top := { f with cur := Expr.capture p.top.cap p.top.close :: f.cur }, stack := fs,
               ncap := p.ncap, rep := false, mode := Mode.normal }
    else if c = '|' then
      some { p with top := { p.top with alts := p.top.alts ++ [mkConcat p.top.cur.reverse], cur := [] },
                    rep := false }
    else if c = '*' then p.repeat Expr.star
    else if c = '+' then p.repeat Expr.plus
    else if c = '?' then p.repeat Expr.quest
    else if c = '.' then some (p.push Expr.anyCharNotNL)
    else if c = '^' then some (p.push Expr.beginText)
    else if c = '$' then some (p.push Expr.endText)
    else if c = '[' then some { p with mode := Mode.classStart }
    else if c = '\\' then some { p with mode := Mode.escape }
    else if c = '{' then none
    else some (p.push (Expr.literal c))

/-- Run the parser over the characters of a pattern. -/
def Parser.run : Parser → List Char → Option Parser
  | p, [] => some p
  | p, c :: cs => match p.step c with
    | none => none
    | some q => Parser.run q cs

/-- Model of `regexp.Compile` (Perl syntax, no flags): `none` is a parse error. -/
def Compile (pattern : List Char) : Option Regexp :=
  match Parser.run { top := { alts := [], cur := [], cap := 0 }, stack := [], ncap := 0,
                     rep := false, mode := Mode.normal } pattern with
  | none => none
  | some p =>
    if p.mode = Mode.normal ∧ p.stack = [] then some { expr := p.top.close, numSubexp := p.ncap }
    else none

/-- A thread of the matcher: number of characters consumed so far, the remaining input
and the text of the capture groups (group `i` at index `i - 1`). -/
structure Thread where
  pos : Nat
  rest : List Char
  caps : List (List Char)
  deriving DecidableEq, Repr

/-- Membership of a character in a class given by ranges. -/
def inClass (neg : Bool) (items : List (Char × Char)) (c : Char) : Bool :=
  (items.any fun r => decide (r.1.toNat ≤ c.toNat) && decide (c.toNat ≤ r.2.toNat)) != neg

/-- Consume one character satisfying `ok`. -/
def Thread.eat (t : Thread) (ok : Char → Bool) : List Thread :=
  match t.rest with
  | [] => []
  | c :: cs => if ok c then [{ t with pos := t.pos + 1, rest := cs }] else []

/-- Greedy iteration of `body`, one or more times: after each iteration that consumed
input, further iterations are preferred to stopping. The fuel bounds the iterations by
the length of the remaining input. -/
def iterate (body : Thread → List Thread) : Nat → Thread → List Thread
  | 0, _ => []
  | fuel + 1, t =>
    (body t).flatMap fun u =>
      (if u.rest.length < t.rest.length then iterate body fuel u else []) ++ [u]

/-- All the ways `e` matches at thread `t`, in the order in which a backtracking search
tries them (greedy repetitions, alternatives left to right): the threads after the match. -/
def Expr.run : Expr → Thread → List Thread
  | Expr.emptyMatch, t => [t]
  | Expr.literal c, t => t.eat fun x => decide (x = c)
  | Expr.anyCharNotNL, t => t.eat fun x => decide (x ≠ '\n')
  | Expr.charClass neg items, t => t.eat (inClass neg items)
  | Expr.beginText, t => if t.pos = 0 then [t] else []
  | Expr.endText, t => if t.rest = [] then [t] else []
  | Expr.capture i e, t =>
    (e.run t).map fun u => { u with caps := u.caps.set (i - 1) (t.rest.take (u.pos - t.pos)) }
  | Expr.star e, t => iterate e.run (t.rest.length + 1) t ++ [t]
  | Expr.plus e, t => iterate e.run (t.rest.length + 1) t
  | Expr.quest e, t => e.run t ++ [t]
  | Expr.concat a b, t => (a.run t).flatMap b.run
  | Expr.alternate a b, t => a.run t ++ b.run t

/-- Leftmost-first search: the first match at the earliest start offset. -/
def search (e : Expr) (n : Nat) : Nat → List Char → Option (Nat × Thread)
  | pos, [] =>
    match (e.run { pos := pos, rest := [], caps := List.replicate n [] }).head? with
    | some t => some (pos, t)
    | none => none
  | pos, c :: tl =>
    match (e.run { pos := pos, rest := c :: tl, caps := List.replicate n [] }).head? with
    | some t => some (pos, t)
    | none => search e n (pos + 1) tl

/-- Model of `(*Regexp).FindStringSubmatch`: the text of the leftmost match followed by
the text of each capture group, or the empty (nil) slice when there is no match. -/
def Regexp.FindStringSubmatch (re : Regexp) (s : List Char) : List (List Char) :=
  match search re.expr re.numSubexp 0 s with
  | none => []
  | some (start, t) => (s.drop start).take (t.pos - start) :: t.caps

end regexp

/-! ## `strings` and `net/http` -/

/-- Model of `strings.Join`. -/
def strings.Join (elems : List (List Char)) (sep : List Char) : List Char :=
  sep.intercalate elems

namespace http

/-- A header map or a set of query values, as key/value pairs (first value of each key;
header names in canonical form). -/
abbrev Values := List (List Char × List Char)

/-- `Header.Get` and `url.Values.Get`: the value of `key`, or the empty string. -/
def Values.Get (h : Values) (key : List Char) : List Char :=
  match h.lookup key with
  | some v => v
  | none => []

/-- `Header.Del`. -/
def Values.Del (h : Values) (key : List Char) : Values :=
  h.filter fun kv => decide (kv.1 ≠ key)

/-- `Header.Set`: replaces the value of `key`. -/
def Values.Set (h : Values) (key value : List Char) : Values :=
  (key, value) :: Values.Del h key

/-- The response as built through `http.ResponseWriter`: header map, the status code
given to `WriteHeader` (`none` until it is written) and the body written so far. -/
structure ResponseWriter where
  header : Values
  status : Option Nat
  body : List Char
  deriving DecidableEq, Repr

/-- `WriteHeader(code)`: a second call is ignored. -/
def ResponseWriter.WriteHeader (w : ResponseWriter) (code : Nat) : ResponseWriter :=
  match w.status with
  | none => { w with status := some code }
  | some _ => w

/-- Function `bodyAllowedForStatus` of `net/http`. -/
def bodyAllowedForStatus (status : Nat) : Bool :=
  if 100 ≤ status ∧ status ≤ 199 then false
  else if status = 204 then false
  else if status = 304 then false
  else true

/-- `Write(data)`: writes the header with status 200 when it is not written yet; the data
is dropped when the status allows no body. -/
def ResponseWriter.Write (w : ResponseWriter) (data : List Char) : ResponseWriter :=
  let w1 := match w.status with
    | none => w.WriteHeader 200
    | some _ => w
  match w1.status with
  | some code => if bodyAllowedForStatus code then { w1 with body := w1.body ++ data } else w1
  | none => w1

/-- Status code the server sends for the response: 200 when the handler returned without
writing the header. -/
def ResponseWriter.code (w : ResponseWriter) : Nat :=
  match w.status with
  | some code => code
  | none => 200

/-- Model of `http.Error`. -/
def Error (w : ResponseWriter) (error : List Char) (code : Nat) : ResponseWriter :=
  let h := Values.Del w.header "Content-Length".toList
  let h := Values.Set h "Content-Type".toList "text/plain; charset=utf-8".toList
  let h := Values.Set h "X-Content-Type-Options".toList "nosniff".toList
  (({ w with header := h }).WriteHeader code).Write (error ++ [Char.ofNat 10])

/-- The fields of `*http.Request` the code reads: method, `URL.Path`, the parsed query
(`URL.Query()`), the header, and the value stored in the context under `ctxKey`. -/
structure Request where
  Method : List Char
  Path : List Char
  Query : Values
  Header : Values
  ctx : Option (List (List Char))
  deriving DecidableEq, Repr

/-- `r.WithContext(context.WithValue(r.Context(), ctxKey, fields))`. -/
def Request.WithContext (r : Request) (fields : List (List Char)) : Request :=
  { r with ctx := some fields }

end http

/-! ## The barcode and image collaborators -/

/-- A call to a collaborator, with the arguments the handler passes. -/
inductive Call where
  | code128_Encode (content : List Char) : Call
  | code39_Encode (content : List Char) (includeChecksum fullASCIIMode : Bool) : Call
  | ean_Encode (code : List Char) : Call
  | pdf417_Encode (text : List Char) (securityLevel : Nat) : Call
  | barcode_Scale (width height : Int) : Call
  | gif_Encode : Call
  | jpeg_Encode : Call
  | png_Encode : Call
  deriving DecidableEq, Repr

/-- What an image encoder does with the `io.Writer` it is given: the data of its
successive `Write` calls, and whether it panics instead of returning. -/
structure Written where
  chunks : List (List Char)
  panics : Bool
  deriving DecidableEq, Repr

/-- The external packages (`boombuler/barcode` and its symbologies, `image/gif`,
`image/jpeg`, `image/png`) as functions: an encoder of a symbology returns a barcode
(or nil) and an error message (or nil); `Scale` likewise. -/
structure Collaborators (Img : Type) where
  code128_Encode : List Char → Option Img × Option (List Char)
  code39_Encode : List Char → Bool → Bool → Option Img × Option (List Char)
  ean_Encode : List Char → Option Img × Option (List Char)
  pdf417_Encode : List Char → Nat → Option Img × Option (List Char)
  barcode_Scale : Option Img → Int → Int → Option Img × Option (List Char)
  gif_Encode : Option Img → Written
  jpeg_Encode : Option Img → Written
  png_Encode : Option Img → Written

/-- The observable effects of handling a request: the response, the collaborator calls
made so far (oldest first), and whether the handler panicked. -/
structure World where
  w : http.ResponseWriter
  calls : List Call
  panicked : Bool
  deriving DecidableEq, Repr

/-- The state in which `net/http` hands a request to the handler. -/
def World.fresh : World :=
  { w := { header := [], status := none, body := [] }, calls := [], panicked := false }

/-- Record a collaborator call. -/
def World.call (s : World) (c : Call) : World := { s with calls := s.calls ++ [c] }

/-- A run-time panic of the handler. -/
def World.panic (s : World) : World := { s with panicked := true }

/-- `w.Header().Set(key, value)`. -/
def World.HeaderSet (s : World) (key value : List Char) : World :=
  { s with w := { s.w with header := http.Values.Set s.w.header key value } }

/-- `w.WriteHeader(code)`. -/
def World.WriteHeader (s : World) (code : Nat) : World :=
  { s with w := s.w.WriteHeader code }

/-- `http.Error(w, error, code)`. -/
def World.Error (s : World) (error : List Char) (code : Nat) : World :=
  { s with w := http.Error s.w error code }

/-- `http.NotFound(w, r)`. -/
def World.NotFound (s : World) (_r : http.Request) : World :=
  s.Error "404 page not found".toList 404

/-- An image encoder running on the response writer. -/
def World.encodeImage (s : World) (c : Call) (out : Written) : World :=
  let s1 := s.call c
  { s1 with w := out.chunks.foldl http.ResponseWriter.Write s1.w,
            panicked := s1.panicked || out.panics }

/-- The status code the client receives, if the handler did not panic. -/
def World.answer (s : World) : Option Nat :=
  if s.panicked then none else some s.w.code

/-! ## `cmd/api.go` -/

/-- Type `http.HandlerFunc`. -/
abbrev HandlerFunc := World → http.Request → World

/-- Struct `route`. -/
structure route where
  method : List Char
  regex : regexp.Regexp
  handler : HandlerFunc

/-- Function `newRoute`; `none` is the panic of `regexp.MustCompile`. -/
def newRoute (method pattern : List Char) (handler : HandlerFunc) : Option route :=
  match regexp.Compile ("^".toList ++ pattern ++ "$".toList) with
  | none => none
  | some re => some { method := method, regex := re, handler := handler }

/-- Function `getField`; `none` is the panic of the type assertion or of the index. -/
def getField (r : http.Request) (index : Nat) : Option (List Char) :=
  match r.ctx with
  | none => none
  | some fields => fields.get? index

/-- The double quote character. -/
def dquote : Char := Char.ofNat 34

/-- The `fmt.Sprintf` call of `getBarcode` that builds the ETag, with the format string
`"%s|%d|%d|%d|%s|%s"` inside double quotes. -/
def etagOf (barcodeType : List Char) (width height pdf417SecurityLevel : Int)
    (text imageType : List Char) : List Char :=
  [dquote] ++ barcodeType ++ ['|'] ++ fmtInt width ++ ['|'] ++ fmtInt height ++ ['|'] ++
    fmtInt pdf417SecurityLevel ++ ['|'] ++ text ++ ['|'] ++ imageType ++ [dquote]

/-- The security level `getBarcode` computes from the symbology and the query. -/
def securityLevelOf (barcodeType : List Char) (r : http.Request) : Int :=
  if barcodeType = "pdf417".toList then
    let x := http.Values.Get r.Query "securityLevel".toList
    if x ≠ [] then (strconv.Atoi x).1 else 0
  else 0

/-- Conversion `byte(n)` of an `int`. -/
def byte (n : Int) : Nat := (n % 256).toNat

/-- The `switch barcodeType` of `getBarcode`: the call made (if any) and its results. -/
def encodeSwitch {Img : Type} (env : Collaborators Img) (s : World) (barcodeType text : List Char)
    (pdf417SecurityLevel : Int) : World × Option Img × Option (List Char) :=
  if barcodeType = "code128".toList then
    (s.call (Call.code128_Encode text), env.code128_Encode text)
  else if barcodeType = "code39".toList then
    (s.call (Call.code39_Encode text true false), env.code39_Encode text true false)
  else if barcodeType = "ean".toList then
    (s.call (Call.ean_Encode text), env.ean_Encode text)
  else if barcodeType = "pdf417".toList then
    (s.call (Call.pdf417_Encode text (byte pdf417SecurityLevel)),
      env.pdf417_Encode text (byte pdf417SecurityLevel))
  else (s, none, none)

/-- The `switch imageType` of `getBarcode`. -/
def imageSwitch {Img : Type} (env : Collaborators Img) (s : World) (imageType : List Char)
    (img : Option Img) : World :=
  if imageType = "gif".toList then
    (s.HeaderSet "Content-Type".toList "image/gif".toList).encodeImage Call.gif_Encode (env.gif_Encode img)
  else if imageType = "jpg".toList then
    (s.HeaderSet "Content-Type".toList "image/jpeg".toList).encodeImage Call.jpeg_Encode (env.jpeg_Encode img)
  else if imageType = "png".toList then
    (s.HeaderSet "Content-Type".toList "image/png".toList).encodeImage Call.png_Encode (env.png_Encode img)
  else s

/-- The body of `getBarcode` once the five fields are read. -/
def getBarcodeFields {Img : Type} (env : Collaborators Img) (w : World) (r : http.Request)
    (barcodeType widthText heightText text imageType : List Char) : World :=
  let width := (strconv.Atoi widthText).1
  let height := (strconv.Atoi heightText).1
  let pdf417SecurityLevel := securityLevelOf barcodeType r
  let etag := etagOf barcodeType width height pdf417SecurityLevel text imageType
  let matchHeader := http.Values.Get r.Header "If-None-Match".toList
  if matchHeader ≠ [] ∧ matchHeader = etag then
    w.WriteHeader 304
  else
    let enc := encodeSwitch env w barcodeType text pdf417SecurityLevel
    match enc.2.2 with
    | some err => enc.1.Error err 400
    | none =>
      let scaled := env.barcode_Scale enc.2.1 width height
      let w1 := enc.1.call (Call.barcode_Scale width height)
      let w2 := w1.HeaderSet "Etag".toList etag
      let w3 := w2.HeaderSet "Cache-Control".toList "max-age=2592000".toList
      imageSwitch env w3 imageType scaled.1

/-- Function `getBarcode`. -/
def getBarcode {Img : Type} (env : Collaborators Img) (w : World) (r : http.Request) : World :=
  match getField r 0, getField r 1, getField r 2, getField r 3, getField r 4 with
  | some barcodeType, some widthText, some heightText, some text, some imageType =>
    getBarcodeFields env w r barcodeType widthText heightText text imageType
  | _, _, _, _, _ => w.panic

/-- Function `faviconNoContent`. -/
def faviconNoContent (w : World) (_r : http.Request) : World :=
  w.Error "No content".toList 204

/-- Variable `routes`; `none` would be a panic at start-up. -/
def routes {Img : Type} (env : Collaborators Img) : Option (List route) :=
  match newRoute "GET".toList "/favicon.ico".toList faviconNoContent,
        newRoute "GET".toList
          "/barcode/(code39|code128|ean|pdf417)/([0-9]+)x([0-9]+)/([^/]+)\\.(gif|jpg|png)".toList
          (getBarcode env) with
  | some r0, some r1 => some [r0, r1]
  | _, _ => none

/-- A handler invocation made by `Serve`: the route whose handler ran and the fields put
in the request context. -/
structure Invocation where
  route : route
  fields : List (List Char)

/-- The loop of `Serve` over the remaining routes, followed by the code after the loop.
The first component of the result records the handler invocations. -/
def ServeLoop (w : World) (r : http.Request) : List route → List (List Char) → List Invocation × World
  | [], allow =>
    if allow.length > 0 then
      ([], (w.HeaderSet "Allow".toList (strings.Join allow ", ".toList)).Error
              "405 method not allowed".toList 405)
    else ([], w.NotFound r)
  | rt :: rest, allow =>
    let submatches := rt.regex.FindStringSubmatch r.Path
    if submatches.length > 0 then
      if r.Method ≠ rt.method then ServeLoop w r rest (allow ++ [rt.method])
      else
        ([{ route := rt, fields := submatches.drop 1 }], rt.handler w (r.WithContext (submatches.drop 1)))
    else ServeLoop w r rest allow

/-- Function `Serve`, over the route table `routes`. -/
def Serve (routes : List route) (w : World) (r : http.Request) : List Invocation × World :=
  ServeLoop w r routes []

/-! ## The dispatcher: vocabulary -/

/-- The pattern of a route matches the path: `len(matches) > 0` in `Serve`. -/
def route.matchesPath (rt : route) (path : List Char) : Prop :=
  0 < (rt.regex.FindStringSubmatch path).length

instance (rt : route) (path : List Char) : Decidable (rt.matchesPath path) := by
  unfold route.matchesPath; infer_instance

/-- The route is selected by the request: its pattern matches the path and its method is
the request method. -/
def route.selects (rt : route) (r : http.Request) : Prop :=
  rt.matchesPath r.Path ∧ rt.method = r.Method

instance (rt : route) (r : http.Request) : Decidable (rt.selects r) := by
  unfold route.selects; infer_instance

/-- The `Allow` list `Serve` has built when no route is selected: the method of every
route whose pattern matches the path, one entry per route, in table order. -/
def allowOf (routes : List route) (r : http.Request) : List (List Char) :=
  (routes.filter fun rt => decide (rt.matchesPath r.Path)).map route.method

/-- Keep the first occurrence of every element. -/
def dedupFirst : List (List Char) → List (List Char)
  | [] => []
  | m :: ms => m :: (dedupFirst ms).filter fun x => decide (x ≠ m)

/-- The `Allow` list as the specification words it: the methods of the routes whose
pattern matches the path, each method once, in order of first registration. -/
def allowDeduplicated (routes : List route) (r : http.Request) : List (List Char) :=
  dedupFirst (allowOf routes r)

/-- The characters of a string as literal expressions. -/
def regexp.lits (s : String) : List regexp.Expr :=
  s.toList.map regexp.Expr.literal

/-- A literal string as an expression. -/
def regexp.lit (s : String) : regexp.Expr :=
  regexp.mkConcat (regexp.lits s)

/-- The expression `regexp.Compile` builds for `^/favicon.ico$`. -/
def faviconExpr : regexp.Expr :=
  regexp.mkConcat ([regexp.Expr.beginText] ++ regexp.lits "/favicon" ++ [regexp.Expr.anyCharNotNL] ++
    regexp.lits "ico" ++ [regexp.Expr.endText])

/-- The part of the barcode pattern after the literal prefix `/barcode/`. -/
def barcodeTail : List regexp.Expr :=
  [regexp.Expr.capture 1
      (regexp.mkAlternate [regexp.lit "code39", regexp.lit "code128", regexp.lit "ean", regexp.lit "pdf417"]),
    regexp.Expr.literal '/',
    regexp.Expr.capture 2 (regexp.Expr.plus (regexp.Expr.charClass false [('0', '9')])),
    regexp.Expr.literal 'x',
    regexp.Expr.capture 3 (regexp.Expr.plus (regexp.Expr.charClass false [('0', '9')])),
    regexp.Expr.literal '/',
    regexp.Expr.capture 4 (regexp.Expr.plus (regexp.Expr.charClass true [('/', '/')])),
    regexp.Expr.literal '.',
    regexp.Expr.capture 5 (regexp.mkAlternate [regexp.lit "gif", regexp.lit "jpg", regexp.lit "png"]),
    regexp.Expr.endText]

/-- The expression `regexp.Compile` builds for the anchored pattern of the barcode route. -/
def barcodeExpr : regexp.Expr :=
  regexp.mkConcat ([regexp.Expr.beginText] ++ regexp.lits "/barcode/" ++ barcodeTail)

/-- The first entry of `routes`. -/
def faviconRoute : route :=
  { method := "GET".toList, regex := { expr := faviconExpr, numSubexp := 0 }, handler := faviconNoContent }

/-- The second entry of `routes`. -/
def barcodeRoute {Img : Type} (env : Collaborators Img) : route :=
  { method := "GET".toList, regex := { expr := barcodeExpr, numSubexp := 5 }, handler := getBarcode env }

/-- Collaborators that accept every text except `invalid$$text` and write a short image. -/
def sampleEnv : Collaborators Unit where
  code128_Encode := fun _ => (some (), none)
  code39_Encode := fun t _ _ =>
    if t = "invalid$$text".toList then (none, some "invalid data!".toList) else (some (), none)
  ean_Encode := fun _ => (some (), none)
  pdf417_Encode := fun _ _ => (some (), none)
  barcode_Scale := fun img _ _ => (img, none)
  gif_Encode := fun _ => { chunks := ["GIF89a".toList], panics := false }
  jpeg_Encode := fun _ => { chunks := ["JFIF".toList], panics := false }
  png_Encode := fun _ => { chunks := ["PNG".toList], panics := false }

/-- A request with the given method and path, no query, no header. -/
def plainRequest (method path : String) : http.Request :=
  { Method := method.toList, Path := path.toList, Query := [], Header := [], ctx := none }

/-- A table with two `GET` routes whose patterns overlap. -/
def overlappingRoutes : List route :=
  (newRoute "GET".toList "/items/([0-9]+)".toList faviconNoContent).toList ++
  (newRoute "GET".toList "/items/(.+)".toList faviconNoContent).toList

/-- The symbologies the barcode route admits. -/
def symbologies : List (List Char) :=
  ["code39".toList, "code128".toList, "ean".toList, "pdf417".toList]

/-- The image formats the barcode route admits. -/
def formats : List (List Char) := ["gif".toList, "jpg".toList, "png".toList]

/-- The call is to the `Encode` function of a symbology. -/
def Call.isEncode : Call → Bool
  | Call.code128_Encode _ => true
  | Call.code39_Encode _ _ _ => true
  | Call.ean_Encode _ => true
  | Call.pdf417_Encode _ _ => true
  | _ => false

/-- The call is to an image encoder. -/
def Call.isImageEncode : Call → Bool
  | Call.gif_Encode => true
  | Call.jpeg_Encode => true
  | Call.png_Encode => true
  | _ => false

/-- The state `w.WriteHeader(http.StatusNotModified)` leaves from a fresh writer: status
304, no header, no body, no collaborator call. -/
def World.notModified : World :=
  { w := { header := [], status := some 304, body := [] }, calls := [], panicked := false }

/-- The request as `Serve` hands it to the handler of the barcode route: the fields are
the capture groups of the pattern on the path. -/
def barcodeRequest (path : String) (query header : http.Values) : http.Request :=
  ({ Method := "GET".toList, Path := path.toList, Query := query, Header := header, ctx := none } :
    http.Request).WithContext
    ((regexp.Regexp.FindStringSubmatch { expr := barcodeExpr, numSubexp := 5 } path.toList).drop 1)

/-- The same request with one header replaced. -/
def http.Request.WithHeader (r : http.Request) (key value : List Char) : http.Request :=
  { r with Header := http.Values.Set r.Header key value }

/-- The number a string of decimal digits denotes. -/
def decimalValue (s : List Char) : Nat :=
  s.foldl (fun a c => a * 10 + (c.toNat - 48)) 0

/-- Thread `u` is thread `t` after consuming exactly the characters `s`. -/
def regexp.Consumes (t : regexp.Thread) (s : List Char) (u : regexp.Thread) : Prop :=
  t.rest = s ++ u.rest ∧ u.pos = t.pos + s.length

/-- Expression `e` matches exactly the strings satisfying `P`, consuming them from the
input, and records them in the captures as `f` says. -/
def regexp.Segment (e : regexp.Expr) (P : List Char → Prop)
    (f : List (List Char) → List Char → List (List Char)) : Prop :=
  ∀ (pos : Nat) (rest : List Char) (caps : List (List Char)) (v : regexp.Thread),
    v ∈ e.run { pos := pos, rest := rest, caps := caps } ↔
      ∃ s r, P s ∧ rest = s ++ r ∧ v = { pos := pos + s.length, rest := r, caps := f caps s }

/-- The path has the form `/barcode/{symbology}/{width}x{height}/{text}.{format}`:
symbology one of the four, width and height non-empty strings of decimal digits, text a
non-empty string without `/`, format one of the three. -/
def BarcodePath (path symbology width height text format : List Char) : Prop :=
  symbology ∈ symbologies ∧
  (width ≠ [] ∧ ∀ c ∈ width, strconv.isDigit c = true) ∧
  (height ≠ [] ∧ ∀ c ∈ height, strconv.isDigit c = true) ∧
  (text ≠ [] ∧ '/' ∉ text) ∧
  format ∈ formats ∧
  path = "/barcode/".toList ++ symbology ++ "/".toList ++ width ++ "x".toList ++ height ++
    "/".toList ++ text ++ ".".toList ++ format

/-! # Theorems -/

/-! ## The dispatcher -/

theorem ServeLoop_hit (w : World) (r : http.Request) (rt : route) (hrt : rt.selects r) :
    ∀ (pre : List route), (∀ x ∈ pre, ¬ x.selects r) → ∀ (post : List route) (allow : List (List Char)),
      ServeLoop w r (pre ++ rt :: post) allow =
        ([{ route := rt, fields := (rt.regex.FindStringSubmatch r.Path).drop 1 }],
          rt.handler w (r.WithContext ((rt.regex.FindStringSubmatch r.Path).drop 1))) := by
  intro pre
  induction pre with
  | nil =>
    intro _ post allow
    have h1 : 0 < (rt.regex.FindStringSubmatch r.Path).length := hrt.1
    have h2 : rt.method = r.Method := hrt.2
    simp [ServeLoop, h1, h2]
  | cons x xs ih =>
    intro hpre post allow
    have hx : ¬ x.selects r := hpre x (List.mem_cons_self _ _)
    have hxs : ∀ y ∈ xs, ¬ y.selects r := fun y hy => hpre y (List.mem_cons_of_mem _ hy)
    by_cases hm : 0 < (x.regex.FindStringSubmatch r.Path).length
    · have hne : r.Method ≠ x.method := fun h => hx ⟨hm, h.symm⟩
      simp only [List.cons_append, ServeLoop, hm, if_true, hne, ne_eq, not_false_eq_true]
      exact ih hxs post _
    · simp only [List.cons_append, ServeLoop, hm, if_false]
      exact ih hxs post _

theorem exists_first_selected (r : http.Request) :
    ∀ (routes : List route), (∃ rt ∈ routes, rt.selects r) →
      ∃ pre rt post, routes = pre ++ rt :: post ∧ (∀ x ∈ pre, ¬ x.selects r) ∧ rt.selects r := by
  intro routes
  induction routes with
  | nil => rintro ⟨rt, hmem, _⟩; cases hmem
  | cons x xs ih =>
    rintro ⟨rt, hmem, hsel⟩
    by_cases hx : x.selects r
    · exact ⟨[], x, xs, rfl, by simp, hx⟩
    · have hin : rt ∈ xs := by
        rcases List.mem_cons.mp hmem with h | h
        · exact absurd (h ▸ hsel) hx
        · exact h
      obtain ⟨pre, rt', post, heq, hpre, hsel'⟩ := ih ⟨rt, hin, hsel⟩
      refine ⟨x :: pre, rt', post, by simp [heq], ?_, hsel'⟩
      intro y hy
      rcases List.mem_cons.mp hy with h | h
      · exact h ▸ hx
      · exact hpre y h

/-- C1: when some route's pattern matches the path and its method is the request method,
`Serve` invokes exactly one handler, the handler of the first such route of the table,
on the unchanged response writer, with the request carrying the capture groups of that
route's match without group 0; the routes after it play no part in the result. -/
theorem Serve_first_selected (routes : List route) (w : World) (r : http.Request)
    (h : ∃ rt ∈ routes, rt.selects r) :
    ∃ pre rt post whole fields, routes = pre ++ rt :: post ∧ (∀ x ∈ pre, ¬ x.selects r) ∧
      rt.selects r ∧ rt.regex.FindStringSubmatch r.Path = whole :: fields ∧
      Serve routes w r = ([{ route := rt, fields := fields }], rt.handler w (r.WithContext fields)) ∧
      ∀ later, Serve (pre ++ rt :: later) w r = Serve routes w r := by
  obtain ⟨pre, rt, post, heq, hpre, hsel⟩ := exists_first_selected r routes h
  have hlen : 0 < (rt.regex.FindStringSubmatch r.Path).length := hsel.1
  obtain ⟨whole, fields, hf⟩ : ∃ a b, rt.regex.FindStringSubmatch r.Path = a :: b := by
    cases hfs : rt.regex.FindStringSubmatch r.Path with
    | nil => rw [hfs] at hlen; exact absurd hlen (by simp)
    | cons a b => exact ⟨a, b, rfl⟩
  have key := ServeLoop_hit w r rt hsel pre hpre
  refine ⟨pre, rt, post, whole, fields, heq, hpre, hsel, hf, ?_, ?_⟩
  · rw [heq]; unfold Serve; rw [key post []]; simp [hf]
  · intro later; rw [heq]; unfold Serve; rw [key later [], key post []]

theorem Compile_favicon :
    regexp.Compile ("^".toList ++ "/favicon.ico".toList ++ "$".toList) =
      some { expr := faviconExpr, numSubexp := 0 } := by decide

theorem Compile_barcode :
    regexp.Compile ("^".toList ++
      "/barcode/(code39|code128|ean|pdf417)/([0-9]+)x([0-9]+)/([^/]+)\\.(gif|jpg|png)".toList ++ "$".toList) =
      some { expr := barcodeExpr, numSubexp := 5 } := by decide

/-- The route table of the program: both patterns compile, to the two routes above. -/
theorem routes_eq {Img : Type} (env : Collaborators Img) :
    routes env = some [faviconRoute, barcodeRoute env] := by
  simp only [routes, newRoute, Compile_favicon, Compile_barcode]
  rfl

/-- Witness of C1: `GET /barcode/code128/300x100/HELLO.png` on the registered table. -/
theorem Serve_first_selected_witness :
    (∃ rt ∈ [faviconRoute, barcodeRoute sampleEnv],
        rt.selects (plainRequest "GET" "/barcode/code128/300x100/HELLO.png")) ∧
    ∃ pre rt post whole fields, [faviconRoute, barcodeRoute sampleEnv] = pre ++ rt :: post ∧
      (∀ x ∈ pre, ¬ x.selects (plainRequest "GET" "/barcode/code128/300x100/HELLO.png")) ∧
      rt.selects (plainRequest "GET" "/barcode/code128/300x100/HELLO.png") ∧
      rt.regex.FindStringSubmatch (plainRequest "GET" "/barcode/code128/300x100/HELLO.png").Path
        = whole :: fields ∧
      Serve [faviconRoute, barcodeRoute sampleEnv] World.fresh
          (plainRequest "GET" "/barcode/code128/300x100/HELLO.png") =
        ([{ route := rt, fields := fields }],
          rt.handler World.fresh
            ((plainRequest "GET" "/barcode/code128/300x100/HELLO.png").WithContext fields)) ∧
      ∀ later, Serve (pre ++ rt :: later) World.fresh
          (plainRequest "GET" "/barcode/code128/300x100/HELLO.png") =
        Serve [faviconRoute, barcodeRoute sampleEnv] World.fresh
          (plainRequest "GET" "/barcode/code128/300x100/HELLO.png") :=
  have h : ∃ rt ∈ [faviconRoute, barcodeRoute sampleEnv],
      rt.selects (plainRequest "GET" "/barcode/code128/300x100/HELLO.png") :=
    ⟨barcodeRoute sampleEnv, List.mem_cons_of_mem _ (List.mem_cons_self _ _), by decide⟩
  ⟨h, Serve_first_selected _ World.fresh _ h⟩

/-! ## Header maps -/

theorem Values.Get_Set_same (h : http.Values) (k v : List Char) :
    http.Values.Get (http.Values.Set h k v) k = v := by
  simp [http.Values.Get, http.Values.Set, List.lookup]

theorem Values.lookup_Del_ne (h : http.Values) (k k' : List Char) (hne : k' ≠ k) :
    (http.Values.Del h k).lookup k' = h.lookup k' := by
  induction h with
  | nil => rfl
  | cons kv rest ih =>
    obtain ⟨a, b⟩ := kv
    by_cases hak : a = k
    · subst hak
      have h1 : (k' == a) = false := by simpa using hne
      simp only [http.Values.Del] at ih
      simpa [http.Values.Del, List.filter, List.lookup, h1] using ih
    · by_cases hk' : k' = a
      · subst hk'
        simp [http.Values.Del, List.filter, List.lookup, hak]
      · have h1 : (k' == a) = false := by simpa using hk'
        simp only [http.Values.Del] at ih
        simpa [http.Values.Del, List.filter, List.lookup, hak, h1] using ih

theorem Values.lookup_Set_ne (h : http.Values) (k k' v : List Char) (hne : k' ≠ k) :
    (http.Values.Set h k v).lookup k' = h.lookup k' := by
  have h1 : (k' == k) = false := by simpa using hne
  simp only [http.Values.Set, List.lookup, h1]
  exact Values.lookup_Del_ne h k k' hne

theorem Values.Get_Set_ne (h : http.Values) (k k' v : List Char) (hne : k' ≠ k) :
    http.Values.Get (http.Values.Set h k v) k' = http.Values.Get h k' := by
  simp only [http.Values.Get, Values.lookup_Set_ne h k k' v hne]

/-- The header map after `http.Error`: the previous entries except for the three keys
`http.Error` deletes or sets. -/
theorem lookup_Error (w : http.ResponseWriter) (e : List Char) (code : Nat) (k : List Char)
    (h1 : k ≠ "Content-Length".toList) (h2 : k ≠ "Content-Type".toList)
    (h3 : k ≠ "X-Content-Type-Options".toList) :
    (http.Error w e code).header.lookup k = w.header.lookup k := by
  have hW : ∀ (x : http.ResponseWriter) (d : List Char), (x.Write d).header = x.header := by
    intro x d
    unfold http.ResponseWriter.Write http.ResponseWriter.WriteHeader
    cases hs : x.status with
    | none => simp only []; split <;> rfl
    | some c => simp only [hs]; split <;> rfl
  have hH : ∀ (x : http.ResponseWriter) (c : Nat), (x.WriteHeader c).header = x.header := by
    intro x c
    unfold http.ResponseWriter.WriteHeader
    cases hs : x.status <;> simp
  unfold http.Error
  simp only [hW, hH]
  rw [Values.lookup_Set_ne _ _ _ _ h3, Values.lookup_Set_ne _ _ _ _ h2, Values.lookup_Del_ne _ _ _ h1]

theorem status_Error_fresh (hd : http.Values) (e : List Char) (code : Nat) :
    (http.Error { header := hd, status := none, body := [] } e code).status = some code := by
  unfold http.Error http.ResponseWriter.Write http.ResponseWriter.WriteHeader
  simp only []
  split <;> simp

/-! ## The dispatcher: 405 and 404 -/

theorem allowOf_cons_match (x : route) (xs : List route) (r : http.Request)
    (h : x.matchesPath r.Path) : allowOf (x :: xs) r = x.method :: allowOf xs r := by
  simp [allowOf, List.filter, h]

theorem allowOf_cons_nomatch (x : route) (xs : List route) (r : http.Request)
    (h : ¬ x.matchesPath r.Path) : allowOf (x :: xs) r = allowOf xs r := by
  simp [allowOf, List.filter, h]

theorem ServeLoop_miss (w : World) (r : http.Request) :
    ∀ (routes : List route), (∀ x ∈ routes, ¬ x.selects r) → ∀ (allow : List (List Char)),
      ServeLoop w r routes allow = ServeLoop w r [] (allow ++ allowOf routes r) := by
  intro routes
  induction routes with
  | nil => intro _ allow; simp [allowOf]
  | cons x xs ih =>
    intro hno allow
    have hx : ¬ x.selects r := hno x (List.mem_cons_self _ _)
    have hxs : ∀ y ∈ xs, ¬ y.selects r := fun y hy => hno y (List.mem_cons_of_mem _ hy)
    by_cases hm : 0 < (x.regex.FindStringSubmatch r.Path).length
    · have hne : r.Method ≠ x.method := fun h => hx ⟨hm, h.symm⟩
      have step : ServeLoop w r (x :: xs) allow = ServeLoop w r xs (allow ++ [x.method]) := by
        simp only [ServeLoop, hm, if_true, hne, ne_eq, not_false_eq_true]
      rw [step, ih hxs, allowOf_cons_match x xs r hm, List.append_assoc]
      rfl
    · have step : ServeLoop w r (x :: xs) allow = ServeLoop w r xs allow := by
        simp only [ServeLoop, hm, if_false]
      rw [step, ih hxs, allowOf_cons_nomatch x xs r hm]

theorem allowOf_eq_nil_iff (routes : List route) (r : http.Request) :
    allowOf routes r = [] ↔ ∀ rt ∈ routes, ¬ rt.matchesPath r.Path := by
  simp [allowOf, List.filter_eq_nil_iff]

/-- When a pattern matches the path and no matching route has the request method, `Serve`
runs the code after its loop with the `Allow` list `allowOf`. -/
theorem Serve_mismatch (routes : List route) (r : http.Request)
    (hsome : ∃ rt ∈ routes, rt.matchesPath r.Path)
    (hnone : ∀ rt ∈ routes, rt.matchesPath r.Path → rt.method ≠ r.Method) :
    Serve routes World.fresh r =
      ([], (World.fresh.HeaderSet "Allow".toList (strings.Join (allowOf routes r) ", ".toList)).Error
              "405 method not allowed".toList 405) ∧
    (Serve routes World.fresh r).1 = [] ∧
    (Serve routes World.fresh r).2.answer = some 405 ∧
    (Serve routes World.fresh r).2.w.header.lookup "Allow".toList =
      some (strings.Join (allowOf routes r) ", ".toList) := by
  have hno : ∀ x ∈ routes, ¬ x.selects r := fun x hx hs => hnone x hx hs.1 hs.2
  have hne : allowOf routes r ≠ [] := by
    rw [Ne, allowOf_eq_nil_iff]
    obtain ⟨rt, hrt, hm⟩ := hsome
    exact fun h => h rt hrt hm
  have hlen : 0 < (allowOf routes r).length := List.length_pos.mpr hne
  have key : Serve routes World.fresh r =
      ([], (World.fresh.HeaderSet "Allow".toList (strings.Join (allowOf routes r) ", ".toList)).Error
              "405 method not allowed".toList 405) := by
    unfold Serve
    rw [ServeLoop_miss World.fresh r routes hno []]
    simp [ServeLoop, hlen]
  refine ⟨key, by rw [key], ?_, ?_⟩
  · rw [key]
    simp only [World.answer, World.Error, World.HeaderSet, World.fresh, http.ResponseWriter.code,
      status_Error_fresh]
    simp
  · rw [key]
    simp only [World.Error, World.HeaderSet, World.fresh]
    rw [lookup_Error _ _ _ _ (by decide) (by decide) (by decide)]
    simp [http.Values.Set, List.lookup]

/-- C2 (amended): when some route's pattern matches the path and no such route has the
request method, `Serve` invokes no handler and answers 405, and the `Allow` header is the
comma-separated list of the methods of the routes whose pattern matches the path, one
entry per matching route in table order (a method is repeated when several matching
routes have it). -/
theorem Serve_method_not_allowed (routes : List route) (r : http.Request)
    (hsome : ∃ rt ∈ routes, rt.matchesPath r.Path)
    (hnone : ∀ rt ∈ routes, rt.matchesPath r.Path → rt.method ≠ r.Method) :
    Serve routes World.fresh r =
      ([], (World.fresh.HeaderSet "Allow".toList (strings.Join (allowOf routes r) ", ".toList)).Error
              "405 method not allowed".toList 405) ∧
    (Serve routes World.fresh r).1 = [] ∧
    (Serve routes World.fresh r).2.answer = some 405 ∧
    (Serve routes World.fresh r).2.w.header.lookup "Allow".toList =
      some (strings.Join (allowOf routes r) ", ".toList) :=
  Serve_mismatch routes r hsome hnone

/-- Witness of C2: `POST /barcode/code39/100x50/ABC.png` on the registered table is
answered 405 with `Allow: GET`. -/
theorem Serve_method_not_allowed_witness :
    (∃ rt ∈ [faviconRoute, barcodeRoute sampleEnv],
        rt.matchesPath (plainRequest "POST" "/barcode/code39/100x50/ABC.png").Path) ∧
    (∀ rt ∈ [faviconRoute, barcodeRoute sampleEnv],
        rt.matchesPath (plainRequest "POST" "/barcode/code39/100x50/ABC.png").Path →
        rt.method ≠ (plainRequest "POST" "/barcode/code39/100x50/ABC.png").Method) ∧
    allowOf [faviconRoute, barcodeRoute sampleEnv]
        (plainRequest "POST" "/barcode/code39/100x50/ABC.png") = ["GET".toList] ∧
    (Serve [faviconRoute, barcodeRoute sampleEnv] World.fresh
        (plainRequest "POST" "/barcode/code39/100x50/ABC.png")).2.answer = some 405 ∧
    (Serve [faviconRoute, barcodeRoute sampleEnv] World.fresh
        (plainRequest "POST" "/barcode/code39/100x50/ABC.png")).2.w.header.lookup "Allow".toList =
      some (strings.Join (allowOf [faviconRoute, barcodeRoute sampleEnv]
        (plainRequest "POST" "/barcode/code39/100x50/ABC.png")) ", ".toList) :=
  have h1 : ∃ rt ∈ [faviconRoute, barcodeRoute sampleEnv],
      rt.matchesPath (plainRequest "POST" "/barcode/code39/100x50/ABC.png").Path :=
    ⟨barcodeRoute sampleEnv, List.mem_cons_of_mem _ (List.mem_cons_self _ _), by decide⟩
  have h2 : ∀ rt ∈ [faviconRoute, barcodeRoute sampleEnv],
      rt.matchesPath (plainRequest "POST" "/barcode/code39/100x50/ABC.png").Path →
      rt.method ≠ (plainRequest "POST" "/barcode/code39/100x50/ABC.png").Method := by
    intro rt hrt _
    simp only [List.mem_cons, List.mem_singleton, List.not_mem_nil, or_false] at hrt
    rcases hrt with h | h <;> subst h <;> decide
  ⟨h1, h2, by decide,
    (Serve_method_not_allowed _ _ h1 h2).2.2.1, (Serve_method_not_allowed _ _ h1 h2).2.2.2⟩

/-- Counterexample to C2 as stated: with two `GET` routes whose patterns both match
`/items/7`, a `DELETE` request is answered 405 with `Allow: GET, GET`, while the
deduplicated list of the claim is `GET`. -/
theorem Serve_allow_repeats_method :
    (∃ rt ∈ overlappingRoutes, rt.matchesPath (plainRequest "DELETE" "/items/7").Path) ∧
    (∀ rt ∈ overlappingRoutes, rt.matchesPath (plainRequest "DELETE" "/items/7").Path →
        rt.method ≠ (plainRequest "DELETE" "/items/7").Method) ∧
    (Serve overlappingRoutes World.fresh (plainRequest "DELETE" "/items/7")).2.w.header.lookup
        "Allow".toList = some "GET, GET".toList ∧
    strings.Join (allowDeduplicated overlappingRoutes (plainRequest "DELETE" "/items/7")) ", ".toList
      = "GET".toList ∧
    (Serve overlappingRoutes World.fresh (plainRequest "DELETE" "/items/7")).2.w.header.lookup
        "Allow".toList ≠
      some (strings.Join (allowDeduplicated overlappingRoutes (plainRequest "DELETE" "/items/7"))
        ", ".toList) := by
  refine ⟨?_, ?_, ?_, ?_, ?_⟩
  · decide
  · decide
  · decide
  · decide
  · decide

/-- Characterisation of the 404 branch of `Serve`. -/
theorem Serve_404_iff (routes : List route) (r : http.Request) :
    ((Serve routes World.fresh r).1 = [] ∧ (Serve routes World.fresh r).2.answer = some 404 ∧
      (Serve routes World.fresh r).2.w.header.lookup "Allow".toList = none) ↔
    ∀ rt ∈ routes, ¬ rt.matchesPath r.Path := by
  constructor
  · rintro ⟨hinv, hans, _⟩ rt hrt hm
    by_cases hsel : ∃ x ∈ routes, x.selects r
    · obtain ⟨pre, x, post, heq, hpre, hx⟩ := exists_first_selected r routes hsel
      have hS := ServeLoop_hit World.fresh r x hx pre hpre post []
      rw [← heq] at hS
      unfold Serve at hinv
      rw [hS] at hinv
      simp at hinv
    · have hnone : ∀ x ∈ routes, x.matchesPath r.Path → x.method ≠ r.Method :=
        fun x hx hxm hmeth => hsel ⟨x, hx, hxm, hmeth⟩
      have h405 := (Serve_mismatch routes r ⟨rt, hrt, hm⟩ hnone).2.2.1
      rw [h405] at hans
      simp at hans
  · intro hno
    have hsel : ∀ x ∈ routes, ¬ x.selects r := fun x hx hs => hno x hx hs.1
    have hnil : allowOf routes r = [] := (allowOf_eq_nil_iff routes r).mpr hno
    have key : Serve routes World.fresh r = ([], World.fresh.NotFound r) := by
      unfold Serve
      rw [ServeLoop_miss World.fresh r routes hsel [], hnil]
      simp [ServeLoop]
    rw [key]
    refine ⟨rfl, ?_, ?_⟩
    · simp only [World.answer, World.NotFound, World.Error, World.fresh, http.ResponseWriter.code,
        status_Error_fresh]
      simp
    · simp only [World.NotFound, World.Error, World.fresh]
      rw [lookup_Error _ _ _ _ (by decide) (by decide) (by decide)]
      rfl

/-- C3: on a fresh response writer, `Serve` invokes no handler, answers 404 and sets no
`Allow` header exactly when no route's pattern matches the path, whatever the method. -/
theorem Serve_not_found_iff (routes : List route) (r : http.Request) :
    ((Serve routes World.fresh r).1 = [] ∧ (Serve routes World.fresh r).2.answer = some 404 ∧
      (Serve routes World.fresh r).2.w.header.lookup "Allow".toList = none) ↔
    ∀ rt ∈ routes, ¬ rt.matchesPath r.Path :=
  Serve_404_iff routes r

/-- The scenario of C3: `GET /unknown/path` on the registered table is answered 404. -/
theorem Serve_unknown_path :
    (Serve [faviconRoute, barcodeRoute sampleEnv] World.fresh (plainRequest "GET" "/unknown/path")).1 = [] ∧
    (Serve [faviconRoute, barcodeRoute sampleEnv] World.fresh
      (plainRequest "GET" "/unknown/path")).2.answer = some 404 := by
  have h := (Serve_404_iff [faviconRoute, barcodeRoute sampleEnv]
    (plainRequest "GET" "/unknown/path")).mpr (by
      intro rt hrt
      simp only [List.mem_cons, List.mem_singleton, List.not_mem_nil, or_false] at hrt
      rcases hrt with h | h <;> subst h <;> decide)
  exact ⟨h.1, h.2.1⟩

/-! ## The response writer -/

theorem Write_header (x : http.ResponseWriter) (d : List Char) : (x.Write d).header = x.header := by
  unfold http.ResponseWriter.Write http.ResponseWriter.WriteHeader
  cases hs : x.status with
  | none => simp only []; split <;> rfl
  | some c => simp only [hs]; split <;> rfl

theorem Write_status_some (x : http.ResponseWriter) (d : List Char) (c : Nat)
    (h : x.status = some c) : (x.Write d).status = some c := by
  unfold http.ResponseWriter.Write http.ResponseWriter.WriteHeader
  simp only [h]
  split <;> simp [h]

theorem Write_status_none (x : http.ResponseWriter) (d : List Char)
    (h : x.status = none) : (x.Write d).status = some 200 := by
  unfold http.ResponseWriter.Write http.ResponseWriter.WriteHeader
  simp only [h]
  split <;> rfl

theorem foldl_Write_header (chunks : List (List Char)) :
    ∀ x : http.ResponseWriter, (chunks.foldl http.ResponseWriter.Write x).header = x.header := by
  induction chunks with
  | nil => intro x; rfl
  | cons d ds ih => intro x; rw [List.foldl_cons, ih, Write_header]

theorem foldl_Write_status_some (chunks : List (List Char)) :
    ∀ (x : http.ResponseWriter) (c : Nat), x.status = some c →
      (chunks.foldl http.ResponseWriter.Write x).status = some c := by
  induction chunks with
  | nil => intro x c h; exact h
  | cons d ds ih => intro x c h; rw [List.foldl_cons]; exact ih _ c (Write_status_some x d c h)

theorem foldl_Write_code (chunks : List (List Char)) (x : http.ResponseWriter)
    (h : x.status = none) : (chunks.foldl http.ResponseWriter.Write x).code = 200 := by
  cases chunks with
  | nil => simp [http.ResponseWriter.code, h]
  | cons d ds =>
    rw [List.foldl_cons]
    simp [http.ResponseWriter.code, foldl_Write_status_some ds _ 200 (Write_status_none x d h)]

/-! ## The two switches of `getBarcode` -/

theorem encodeSwitch_w {Img : Type} (env : Collaborators Img) (s : World) (bt text : List Char)
    (lvl : Int) : (encodeSwitch env s bt text lvl).1.w = s.w ∧
      (encodeSwitch env s bt text lvl).1.panicked = s.panicked := by
  unfold encodeSwitch
  split_ifs <;> exact ⟨rfl, rfl⟩

theorem encodeSwitch_calls {Img : Type} (env : Collaborators Img) (s : World) (bt text : List Char)
    (lvl : Int) (hsym : bt ∈ symbologies) :
    ∃ c, (encodeSwitch env s bt text lvl).1.calls = s.calls ++ [c] ∧ c.isEncode = true ∧
      (bt = "code128".toList → c = Call.code128_Encode text) ∧
      (bt = "code39".toList → c = Call.code39_Encode text true false) ∧
      (bt = "ean".toList → c = Call.ean_Encode text) ∧
      (bt = "pdf417".toList → c = Call.pdf417_Encode text (byte lvl)) := by
  simp only [symbologies, List.mem_cons, List.mem_singleton, List.not_mem_nil, or_false] at hsym
  rcases hsym with h | h | h | h <;> subst h
  · refine ⟨Call.code39_Encode text true false, ?_, rfl, ?_, fun _ => rfl, ?_, ?_⟩
    · have h1 : "code39".toList ≠ "code128".toList := by decide
      simp [encodeSwitch, World.call, h1]
    · exact fun h => absurd h (by decide)
    · exact fun h => absurd h (by decide)
    · exact fun h => absurd h (by decide)
  · refine ⟨Call.code128_Encode text, ?_, rfl, fun _ => rfl, ?_, ?_, ?_⟩
    · simp [encodeSwitch, World.call]
    · exact fun h => absurd h (by decide)
    · exact fun h => absurd h (by decide)
    · exact fun h => absurd h (by decide)
  · refine ⟨Call.ean_Encode text, ?_, rfl, ?_, ?_, fun _ => rfl, ?_⟩
    · have h1 : "ean".toList ≠ "code128".toList := by decide
      have h2 : "ean".toList ≠ "code39".toList := by decide
      simp [encodeSwitch, World.call, h1, h2]
    · exact fun h => absurd h (by decide)
    · exact fun h => absurd h (by decide)
    · exact fun h => absurd h (by decide)
  · refine ⟨Call.pdf417_Encode text (byte lvl), ?_, rfl, ?_, ?_, ?_, fun _ => rfl⟩
    · have h1 : "pdf417".toList ≠ "code128".toList := by decide
      have h2 : "pdf417".toList ≠ "code39".toList := by decide
      have h3 : "pdf417".toList ≠ "ean".toList := by decide
      simp [encodeSwitch, World.call, h1, h2, h3]
    · exact fun h => absurd h (by decide)
    · exact fun h => absurd h (by decide)
    · exact fun h => absurd h (by decide)

theorem encodeSwitch_calls_sub {Img : Type} (env : Collaborators Img) (s : World)
    (bt text : List Char) (lvl : Int) :
    ∃ cs, (encodeSwitch env s bt text lvl).1.calls = s.calls ++ cs ∧ ∀ c ∈ cs, c.isEncode = true := by
  unfold encodeSwitch
  split_ifs
  · exact ⟨[_], rfl, by simp [Call.isEncode]⟩
  · exact ⟨[_], rfl, by simp [Call.isEncode]⟩
  · exact ⟨[_], rfl, by simp [Call.isEncode]⟩
  · exact ⟨[_], rfl, by simp [Call.isEncode]⟩
  · exact ⟨[], by simp, by simp⟩

theorem encodeImage_facts (s : World) (c : Call) (out : Written) :
    (s.encodeImage c out).w.header = s.w.header ∧
    (s.encodeImage c out).calls = s.calls ++ [c] ∧
    (s.w.status = none → (s.encodeImage c out).w.code = 200) := by
  refine ⟨?_, rfl, ?_⟩
  · simp [World.encodeImage, World.call, foldl_Write_header]
  · intro h
    simp only [World.encodeImage, World.call]
    exact foldl_Write_code _ _ h

/-- The image switch only sets `Content-Type`, appends at most the image encoder call and,
on a writer whose header is not written yet, leaves the status code 200. -/
theorem imageSwitch_facts {Img : Type} (env : Collaborators Img) (s : World) (it : List Char)
    (img : Option Img) :
    (∀ k, k ≠ "Content-Type".toList → (imageSwitch env s it img).w.header.lookup k = s.w.header.lookup k) ∧
    (∃ cs, (imageSwitch env s it img).calls = s.calls ++ cs) ∧
    (s.w.status = none → (imageSwitch env s it img).w.code = 200) := by
  unfold imageSwitch
  split_ifs
  · refine ⟨fun k hk => ?_, ⟨_, (encodeImage_facts _ _ _).2.1⟩, fun h => (encodeImage_facts _ _ _).2.2 h⟩
    rw [(encodeImage_facts _ _ _).1]
    exact Values.lookup_Set_ne _ _ _ _ hk
  · refine ⟨fun k hk => ?_, ⟨_, (encodeImage_facts _ _ _).2.1⟩, fun h => (encodeImage_facts _ _ _).2.2 h⟩
    rw [(encodeImage_facts _ _ _).1]
    exact Values.lookup_Set_ne _ _ _ _ hk
  · refine ⟨fun k hk => ?_, ⟨_, (encodeImage_facts _ _ _).2.1⟩, fun h => (encodeImage_facts _ _ _).2.2 h⟩
    rw [(encodeImage_facts _ _ _).1]
    exact Values.lookup_Set_ne _ _ _ _ hk
  · exact ⟨fun _ _ => rfl, ⟨[], by simp⟩, fun h => by simp [http.ResponseWriter.code, h]⟩

theorem getBarcode_of_fields {Img : Type} (env : Collaborators Img) (w : World) (r : http.Request)
    (bt wt ht text it : List Char) (hctx : r.ctx = some [bt, wt, ht, text, it]) :
    getBarcode env w r = getBarcodeFields env w r bt wt ht text it := by
  simp [getBarcode, getField, hctx]

/-! ## The barcode handler -/

/-- A cache hit: the handler only writes the status 304. -/
theorem getBarcodeFields_hit {Img : Type} (env : Collaborators Img) (r : http.Request)
    (bt wt ht text it : List Char)
    (h : http.Values.Get r.Header "If-None-Match".toList =
      etagOf bt (strconv.Atoi wt).1 (strconv.Atoi ht).1 (securityLevelOf bt r) text it) :
    getBarcodeFields env World.fresh r bt wt ht text it = World.notModified := by
  have hne : etagOf bt (strconv.Atoi wt).1 (strconv.Atoi ht).1 (securityLevelOf bt r) text it ≠ [] := by
    simp [etagOf]
  unfold getBarcodeFields
  simp only [h, ne_eq, hne, not_false_eq_true, and_self, if_true]
  rfl

/-- No cache hit: the handler is the encode switch followed by either the error response
or the scaling, the two caching headers and the image switch. -/
theorem getBarcodeFields_miss {Img : Type} (env : Collaborators Img) (w : World) (r : http.Request)
    (bt wt ht text it : List Char)
    (h : http.Values.Get r.Header "If-None-Match".toList ≠
      etagOf bt (strconv.Atoi wt).1 (strconv.Atoi ht).1 (securityLevelOf bt r) text it) :
    getBarcodeFields env w r bt wt ht text it =
      match (encodeSwitch env w bt text (securityLevelOf bt r)).2.2 with
      | some err => (encodeSwitch env w bt text (securityLevelOf bt r)).1.Error err 400
      | none =>
        imageSwitch env
          ((((encodeSwitch env w bt text (securityLevelOf bt r)).1.call
              (Call.barcode_Scale (strconv.Atoi wt).1 (strconv.Atoi ht).1)).HeaderSet "Etag".toList
              (etagOf bt (strconv.Atoi wt).1 (strconv.Atoi ht).1 (securityLevelOf bt r) text it)).HeaderSet
            "Cache-Control".toList "max-age=2592000".toList) it
          (env.barcode_Scale (encodeSwitch env w bt text (securityLevelOf bt r)).2.1
            (strconv.Atoi wt).1 (strconv.Atoi ht).1).1 := by
  unfold getBarcodeFields
  simp only [h, and_false, if_false]

/-- The error branch on a fresh writer. -/
theorem encode_error_world {Img : Type} (env : Collaborators Img) (bt text : List Char) (lvl : Int)
    (m : List Char) :
    ((encodeSwitch env World.fresh bt text lvl).1.Error m 400).answer = some 400 ∧
    ((encodeSwitch env World.fresh bt text lvl).1.Error m 400).w.body = m ++ [Char.ofNat 10] ∧
    ((encodeSwitch env World.fresh bt text lvl).1.Error m 400).calls =
      (encodeSwitch env World.fresh bt text lvl).1.calls ∧
    ((encodeSwitch env World.fresh bt text lvl).1.Error m 400).w.header.lookup "Etag".toList = none ∧
    ((encodeSwitch env World.fresh bt text lvl).1.Error m 400).w.header.lookup "Cache-Control".toList
      = none := by
  have hw := (encodeSwitch_w env World.fresh bt text lvl).1
  have hp := (encodeSwitch_w env World.fresh bt text lvl).2
  have hE : ((encodeSwitch env World.fresh bt text lvl).1.Error m 400).w =
      http.Error { header := [], status := none, body := [] } m 400 := by
    simp only [World.Error]; rw [hw]; rfl
  have hP : ((encodeSwitch env World.fresh bt text lvl).1.Error m 400).panicked = false := by
    simp only [World.Error]; rw [hp]; rfl
  refine ⟨?_, ?_, rfl, ?_, ?_⟩
  · simp [World.answer, hP, hE, http.ResponseWriter.code, status_Error_fresh]
  · rw [hE]
    simp [http.Error, http.ResponseWriter.Write, http.ResponseWriter.WriteHeader,
      http.bodyAllowedForStatus]
  · rw [hE, lookup_Error _ _ _ _ (by decide) (by decide) (by decide)]
    rfl
  · rw [hE, lookup_Error _ _ _ _ (by decide) (by decide) (by decide)]
    rfl

/-- The success branch on a fresh writer: status code 200 unless an encoder panics, the two
caching headers, and the calls: the encode switch, `Scale`, then the image switch. -/
theorem encode_ok_world {Img : Type} (env : Collaborators Img) (bt text it : List Char) (lvl : Int)
    (width height : Int) (etag : List Char) (img : Option Img) :
    (imageSwitch env ((((encodeSwitch env World.fresh bt text lvl).1.call
        (Call.barcode_Scale width height)).HeaderSet "Etag".toList etag).HeaderSet
        "Cache-Control".toList "max-age=2592000".toList) it img).w.code = 200 ∧
    (imageSwitch env ((((encodeSwitch env World.fresh bt text lvl).1.call
        (Call.barcode_Scale width height)).HeaderSet "Etag".toList etag).HeaderSet
        "Cache-Control".toList "max-age=2592000".toList) it img).w.header.lookup "Etag".toList
      = some etag ∧
    (imageSwitch env ((((encodeSwitch env World.fresh bt text lvl).1.call
        (Call.barcode_Scale width height)).HeaderSet "Etag".toList etag).HeaderSet
        "Cache-Control".toList "max-age=2592000".toList) it img).w.header.lookup
        "Cache-Control".toList = some "max-age=2592000".toList ∧
    ∃ cs, (imageSwitch env ((((encodeSwitch env World.fresh bt text lvl).1.call
        (Call.barcode_Scale width height)).HeaderSet "Etag".toList etag).HeaderSet
        "Cache-Control".toList "max-age=2592000".toList) it img).calls =
      (encodeSwitch env World.fresh bt text lvl).1.calls ++ Call.barcode_Scale width height :: cs := by
  have hw := (encodeSwitch_w env World.fresh bt text lvl).1
  obtain ⟨hk, ⟨cs, hcs⟩, hst⟩ := imageSwitch_facts env
    ((((encodeSwitch env World.fresh bt text lvl).1.call
        (Call.barcode_Scale width height)).HeaderSet "Etag".toList etag).HeaderSet
        "Cache-Control".toList "max-age=2592000".toList) it img
  refine ⟨hst ?_, ?_, ?_, ⟨cs, ?_⟩⟩
  · simp only [World.HeaderSet, World.call]; rw [hw]; rfl
  · rw [hk _ (by decide)]
    simp only [World.HeaderSet, World.call]
    rw [Values.lookup_Set_ne _ _ _ _ (by decide)]
    simp [http.Values.Set, List.lookup]
  · rw [hk _ (by decide)]
    simp [World.HeaderSet, World.call, http.Values.Set, List.lookup]
  · rw [hcs]
    simp [World.HeaderSet, World.call]

/-- C4: for a request reaching `getBarcode` with the five fields of the barcode route, an
`If-None-Match` header equal to the computed ETag gives status 304 with no body, no header
and no collaborator call at all; with the header absent or different the answer is not 304
and the first thing the handler does is to call the `Encode` function of the symbology. -/
theorem getBarcode_conditional {Img : Type} (env : Collaborators Img) (r : http.Request)
    (bt wt ht text it : List Char) (hctx : r.ctx = some [bt, wt, ht, text, it])
    (hsym : bt ∈ symbologies) :
    (http.Values.Get r.Header "If-None-Match".toList =
        etagOf bt (strconv.Atoi wt).1 (strconv.Atoi ht).1 (securityLevelOf bt r) text it →
      getBarcode env World.fresh r = World.notModified) ∧
    (http.Values.Get r.Header "If-None-Match".toList ≠
        etagOf bt (strconv.Atoi wt).1 (strconv.Atoi ht).1 (securityLevelOf bt r) text it →
      (getBarcode env World.fresh r).answer ≠ some 304 ∧
      ∃ c rest, (getBarcode env World.fresh r).calls = c :: rest ∧ c.isEncode = true ∧
        (bt = "code128".toList → c = Call.code128_Encode text) ∧
        (bt = "code39".toList → c = Call.code39_Encode text true false) ∧
        (bt = "ean".toList → c = Call.ean_Encode text) ∧
        (bt = "pdf417".toList → c = Call.pdf417_Encode text (byte (securityLevelOf bt r)))) := by
  rw [getBarcode_of_fields env World.fresh r bt wt ht text it hctx]
  refine ⟨fun h => getBarcodeFields_hit env r bt wt ht text it h, fun h => ?_⟩
  rw [getBarcodeFields_miss env World.fresh r bt wt ht text it h]
  obtain ⟨c, hc, henc, hspec⟩ :=
    encodeSwitch_calls env World.fresh bt text (securityLevelOf bt r) hsym
  cases herr : (encodeSwitch env World.fresh bt text (securityLevelOf bt r)).2.2 with
  | some m =>
    simp only []
    obtain ⟨ha, _, hcalls, _, _⟩ := encode_error_world env bt text (securityLevelOf bt r) m
    refine ⟨by rw [ha]; simp, c, [], ?_, henc, hspec⟩
    rw [hcalls, hc]; rfl
  | none =>
    simp only []
    obtain ⟨hcode, _, _, cs, hcalls⟩ := encode_ok_world env bt text it (securityLevelOf bt r)
      (strconv.Atoi wt).1 (strconv.Atoi ht).1
      (etagOf bt (strconv.Atoi wt).1 (strconv.Atoi ht).1 (securityLevelOf bt r) text it)
      (env.barcode_Scale (encodeSwitch env World.fresh bt text (securityLevelOf bt r)).2.1
        (strconv.Atoi wt).1 (strconv.Atoi ht).1).1
    refine ⟨?_, c, Call.barcode_Scale (strconv.Atoi wt).1 (strconv.Atoi ht).1 :: cs, ?_, henc, hspec⟩
    · unfold World.answer
      split
      · simp
      · rw [hcode]; simp
    · rw [hcalls, hc]; rfl

/-- Witness of C4: `/barcode/code128/300x100/HELLO.png` with `If-None-Match` set to its ETag. -/
theorem getBarcode_conditional_witness :
    (barcodeRequest "/barcode/code128/300x100/HELLO.png" []
        [("If-None-Match".toList, etagOf "code128".toList 300 100 0 "HELLO".toList "png".toList)]).ctx =
      some ["code128".toList, "300".toList, "100".toList, "HELLO".toList, "png".toList] ∧
    "code128".toList ∈ symbologies ∧
    getBarcode sampleEnv World.fresh
      (barcodeRequest "/barcode/code128/300x100/HELLO.png" []
        [("If-None-Match".toList, etagOf "code128".toList 300 100 0 "HELLO".toList "png".toList)]) =
      World.notModified :=
  ⟨by decide, by decide,
    (getBarcode_conditional sampleEnv
      (barcodeRequest "/barcode/code128/300x100/HELLO.png" []
        [("If-None-Match".toList, etagOf "code128".toList 300 100 0 "HELLO".toList "png".toList)])
      "code128".toList "300".toList "100".toList "HELLO".toList "png".toList
      (by decide) (by decide)).1 (by decide)⟩

/-- C5: when `getBarcode` answers 200, the response carries the computed ETag in its `Etag`
header and `Cache-Control: max-age=2592000`, and the same request repeated with
`If-None-Match` set to the value of that header is answered 304 with no body. -/
theorem getBarcode_round_trip {Img : Type} (env : Collaborators Img) (r : http.Request)
    (bt wt ht text it : List Char) (hctx : r.ctx = some [bt, wt, ht, text, it])
    (h200 : (getBarcode env World.fresh r).answer = some 200) :
    (getBarcode env World.fresh r).w.header.lookup "Etag".toList =
      some (etagOf bt (strconv.Atoi wt).1 (strconv.Atoi ht).1 (securityLevelOf bt r) text it) ∧
    (getBarcode env World.fresh r).w.header.lookup "Cache-Control".toList =
      some "max-age=2592000".toList ∧
    getBarcode env World.fresh
      (r.WithHeader "If-None-Match".toList
        (http.Values.Get (getBarcode env World.fresh r).w.header "Etag".toList)) =
      World.notModified := by
  have hfirst : (getBarcode env World.fresh r).w.header.lookup "Etag".toList =
      some (etagOf bt (strconv.Atoi wt).1 (strconv.Atoi ht).1 (securityLevelOf bt r) text it) ∧
    (getBarcode env World.fresh r).w.header.lookup "Cache-Control".toList =
      some "max-age=2592000".toList := by
    rw [getBarcode_of_fields env World.fresh r bt wt ht text it hctx] at h200 ⊢
    by_cases hit : http.Values.Get r.Header "If-None-Match".toList =
        etagOf bt (strconv.Atoi wt).1 (strconv.Atoi ht).1 (securityLevelOf bt r) text it
    · rw [getBarcodeFields_hit env r bt wt ht text it hit] at h200
      exact absurd h200 (by decide)
    · rw [getBarcodeFields_miss env World.fresh r bt wt ht text it hit] at h200 ⊢
      cases herr : (encodeSwitch env World.fresh bt text (securityLevelOf bt r)).2.2 with
      | some m =>
        simp only [herr] at h200
        rw [(encode_error_world env bt text (securityLevelOf bt r) m).1] at h200
        exact absurd h200 (by decide)
      | none =>
        simp only []
        obtain ⟨_, h1, h2, _⟩ := encode_ok_world env bt text it (securityLevelOf bt r)
          (strconv.Atoi wt).1 (strconv.Atoi ht).1
          (etagOf bt (strconv.Atoi wt).1 (strconv.Atoi ht).1 (securityLevelOf bt r) text it)
          (env.barcode_Scale (encodeSwitch env World.fresh bt text (securityLevelOf bt r)).2.1
            (strconv.Atoi wt).1 (strconv.Atoi ht).1).1
        exact ⟨h1, h2⟩
  refine ⟨hfirst.1, hfirst.2, ?_⟩
  have hget : http.Values.Get (getBarcode env World.fresh r).w.header "Etag".toList =
      etagOf bt (strconv.Atoi wt).1 (strconv.Atoi ht).1 (securityLevelOf bt r) text it := by
    simp only [http.Values.Get, hfirst.1]
  rw [hget, getBarcode_of_fields env World.fresh
    (r.WithHeader "If-None-Match".toList
      (etagOf bt (strconv.Atoi wt).1 (strconv.Atoi ht).1 (securityLevelOf bt r) text it))
    bt wt ht text it hctx]
  apply getBarcodeFields_hit
  simp only [http.Request.WithHeader]
  rw [Values.Get_Set_same]
  rfl

/-- Witness of C5: `GET /barcode/code128/300x100/HELLO.png`, then the same request with
`If-None-Match` set to the ETag of the first response. -/
theorem getBarcode_round_trip_witness :
    (barcodeRequest "/barcode/code128/300x100/HELLO.png" [] []).ctx =
      some ["code128".toList, "300".toList, "100".toList, "HELLO".toList, "png".toList] ∧
    (getBarcode sampleEnv World.fresh
      (barcodeRequest "/barcode/code128/300x100/HELLO.png" [] [])).answer = some 200 ∧
    (getBarcode sampleEnv World.fresh
      (barcodeRequest "/barcode/code128/300x100/HELLO.png" [] [])).w.header.lookup "Etag".toList =
      some (etagOf "code128".toList 300 100 0 "HELLO".toList "png".toList) ∧
    getBarcode sampleEnv World.fresh
      (barcodeRequest "/barcode/code128/300x100/HELLO.png" []
        [("If-None-Match".toList, etagOf "code128".toList 300 100 0 "HELLO".toList "png".toList)]) =
      World.notModified :=
  have h := getBarcode_round_trip sampleEnv (barcodeRequest "/barcode/code128/300x100/HELLO.png" [] [])
    "code128".toList "300".toList "100".toList "HELLO".toList "png".toList (by decide) (by decide)
  ⟨by decide, by decide, h.1, by decide⟩

/-- C7: for a request that is not a cache hit, when the `Encode` call of the symbology
returns the error message `m` the handler answers 400 with body `m` and a newline, makes
no call besides `Encode` (neither `Scale` nor an image encoder) and sets neither `Etag`
nor `Cache-Control`; when `Encode` returns no error the answer is not 400. -/
theorem getBarcode_encode_error {Img : Type} (env : Collaborators Img) (r : http.Request)
    (bt wt ht text it : List Char) (hctx : r.ctx = some [bt, wt, ht, text, it])
    (hmiss : http.Values.Get r.Header "If-None-Match".toList ≠
      etagOf bt (strconv.Atoi wt).1 (strconv.Atoi ht).1 (securityLevelOf bt r) text it) :
    (∀ m, (encodeSwitch env World.fresh bt text (securityLevelOf bt r)).2.2 = some m →
      (getBarcode env World.fresh r).answer = some 400 ∧
      (getBarcode env World.fresh r).w.body = m ++ [Char.ofNat 10] ∧
      (∀ c ∈ (getBarcode env World.fresh r).calls, c.isEncode = true) ∧
      (getBarcode env World.fresh r).w.header.lookup "Etag".toList = none ∧
      (getBarcode env World.fresh r).w.header.lookup "Cache-Control".toList = none) ∧
    ((encodeSwitch env World.fresh bt text (securityLevelOf bt r)).2.2 = none →
      (getBarcode env World.fresh r).answer ≠ some 400) := by
  rw [getBarcode_of_fields env World.fresh r bt wt ht text it hctx,
    getBarcodeFields_miss env World.fresh r bt wt ht text it hmiss]
  constructor
  · intro m hm
    simp only [hm]
    obtain ⟨ha, hb, hcalls, he, hcc⟩ := encode_error_world env bt text (securityLevelOf bt r) m
    refine ⟨ha, hb, ?_, he, hcc⟩
    rw [hcalls]
    obtain ⟨cs, hcs, hall⟩ := encodeSwitch_calls_sub env World.fresh bt text (securityLevelOf bt r)
    rw [hcs]
    intro c hc
    simp only [World.fresh, List.nil_append] at hc
    exact hall c hc
  · intro hnone
    simp only [hnone]
    obtain ⟨hcode, _, _, _⟩ := encode_ok_world env bt text it (securityLevelOf bt r)
      (strconv.Atoi wt).1 (strconv.Atoi ht).1
      (etagOf bt (strconv.Atoi wt).1 (strconv.Atoi ht).1 (securityLevelOf bt r) text it)
      (env.barcode_Scale (encodeSwitch env World.fresh bt text (securityLevelOf bt r)).2.1
        (strconv.Atoi wt).1 (strconv.Atoi ht).1).1
    unfold World.answer
    split
    · simp
    · rw [hcode]; simp

/-- Witness of C7: `GET /barcode/code39/100x50/invalid$$text.png` with a collaborator that
rejects the text. -/
theorem getBarcode_encode_error_witness :
    (barcodeRequest "/barcode/code39/100x50/invalid$$text.png" [] []).ctx =
      some ["code39".toList, "100".toList, "50".toList, "invalid$$text".toList, "png".toList] ∧
    (encodeSwitch sampleEnv World.fresh "code39".toList "invalid$$text".toList
      (securityLevelOf "code39".toList
        (barcodeRequest "/barcode/code39/100x50/invalid$$text.png" [] []))).2.2 =
      some "invalid data!".toList ∧
    (getBarcode sampleEnv World.fresh
      (barcodeRequest "/barcode/code39/100x50/invalid$$text.png" [] [])).answer = some 400 ∧
    (getBarcode sampleEnv World.fresh
      (barcodeRequest "/barcode/code39/100x50/invalid$$text.png" [] [])).w.body =
      "invalid data!".toList ++ [Char.ofNat 10] :=
  have h := (getBarcode_encode_error sampleEnv
    (barcodeRequest "/barcode/code39/100x50/invalid$$text.png" [] [])
    "code39".toList "100".toList "50".toList "invalid$$text".toList "png".toList
    (by decide) (by decide)).1 "invalid data!".toList (by decide)
  ⟨by decide, by decide, h.1, h.2.1⟩

/-! ## Decimal formatting -/

theorem digitChar_toNat (d : Nat) (h : d < 10) : (Nat.digitChar d).toNat - 48 = d := by
  interval_cases d <;> rfl

theorem digitChar_isDigit (d : Nat) (h : d < 10) : strconv.isDigit (Nat.digitChar d) = true := by
  interval_cases d <;> rfl

theorem toDigitsCore_append (f : Nat) : ∀ (n : Nat) (ds : List Char),
    Nat.toDigitsCore 10 f n ds = Nat.toDigitsCore 10 f n [] ++ ds := by
  induction f with
  | zero => intro n ds; simp [Nat.toDigitsCore]
  | succ f ih =>
    intro n ds
    simp only [Nat.toDigitsCore]
    split
    · simp
    · rw [ih (n / 10) (Nat.digitChar (n % 10) :: ds), ih (n / 10) [Nat.digitChar (n % 10)]]
      simp

theorem toDigitsCore_succ (f n : Nat) :
    Nat.toDigitsCore 10 (f + 1) n [] =
      (if n / 10 = 0 then [] else Nat.toDigitsCore 10 f (n / 10) []) ++ [Nat.digitChar (n % 10)] := by
  simp only [Nat.toDigitsCore]
  split
  · simp
  · rw [toDigitsCore_append]

theorem toDigitsCore_digits (f : Nat) : ∀ (n : Nat),
    ∀ c ∈ Nat.toDigitsCore 10 f n [], strconv.isDigit c = true := by
  induction f with
  | zero => intro n c hc; simp [Nat.toDigitsCore] at hc
  | succ f ih =>
    intro n c hc
    rw [toDigitsCore_succ] at hc
    rcases List.mem_append.mp hc with h | h
    · split at h
      · cases h
      · exact ih _ c h
    · rw [List.mem_singleton] at h
      rw [h]
      exact digitChar_isDigit _ (Nat.mod_lt _ (by decide))

theorem toDigits_digits (n : Nat) : ∀ c ∈ Nat.toDigits 10 n, strconv.isDigit c = true :=
  toDigitsCore_digits (n + 1) n

theorem decimalValue_append (s : List Char) (c : Char) :
    decimalValue (s ++ [c]) = decimalValue s * 10 + (c.toNat - 48) := by
  simp [decimalValue, List.foldl_append]

theorem decimalValue_toDigitsCore (f : Nat) : ∀ (n : Nat), n < f →
    decimalValue (Nat.toDigitsCore 10 f n []) = n := by
  induction f with
  | zero => intro n h; omega
  | succ f ih =>
    intro n h
    rw [toDigitsCore_succ, decimalValue_append, digitChar_toNat _ (Nat.mod_lt _ (by decide))]
    split
    · rename_i h0
      simp only [decimalValue, List.foldl_nil]
      omega
    · rename_i h0
      rw [ih (n / 10) (by omega)]
      omega

theorem decimalValue_toDigits (n : Nat) : decimalValue (Nat.toDigits 10 n) = n :=
  decimalValue_toDigitsCore (n + 1) n (Nat.lt_succ_self n)

theorem toDigits_injective (a b : Nat) (h : Nat.toDigits 10 a = Nat.toDigits 10 b) : a = b := by
  rw [← decimalValue_toDigits a, ← decimalValue_toDigits b, h]

theorem fmtInt_chars (n : Int) : ∀ c ∈ fmtInt n, strconv.isDigit c = true ∨ c = '-' := by
  intro c hc
  cases n with
  | ofNat a => exact Or.inl (toDigits_digits a c hc)
  | negSucc a =>
    simp only [fmtInt, List.mem_cons] at hc
    rcases hc with h | h
    · exact Or.inr h
    · exact Or.inl (toDigits_digits _ c h)

theorem fmtInt_no_bar (n : Int) : '|' ∉ fmtInt n := by
  intro h
  rcases fmtInt_chars n _ h with h | h
  · exact absurd h (by decide)
  · exact absurd h (by decide)

theorem fmtInt_injective (a b : Int) (h : fmtInt a = fmtInt b) : a = b := by
  cases a with
  | ofNat x =>
    cases b with
    | ofNat y => simp only [fmtInt] at h; rw [toDigits_injective x y h]
    | negSucc y =>
      simp only [fmtInt] at h
      have hm : '-' ∈ Nat.toDigits 10 x := by rw [h]; exact List.mem_cons_self _ _
      exact absurd (toDigits_digits x _ hm) (by decide)
  | negSucc x =>
    cases b with
    | ofNat y =>
      simp only [fmtInt] at h
      have hm : '-' ∈ Nat.toDigits 10 y := by rw [← h]; exact List.mem_cons_self _ _
      exact absurd (toDigits_digits y _ hm) (by decide)
    | negSucc y =>
      simp only [fmtInt, List.cons.injEq, true_and] at h
      have := toDigits_injective _ _ h
      rw [Nat.add_right_cancel this]

/-! ## The ETag -/

theorem append_sep_inj (a : Char) : ∀ (x₁ x₂ z₁ z₂ : List Char), a ∉ x₁ → a ∉ x₂ →
    x₁ ++ a :: z₁ = x₂ ++ a :: z₂ → x₁ = x₂ ∧ z₁ = z₂ := by
  intro x₁
  induction x₁ with
  | nil =>
    intro x₂ z₁ z₂ _ h2 h
    cases x₂ with
    | nil => simpa using h
    | cons b bs =>
      simp only [List.nil_append, List.cons_append, List.cons.injEq] at h
      exact absurd (h.1 ▸ List.mem_cons_self _ _) h2
  | cons c cs ih =>
    intro x₂ z₁ z₂ h1 h2 h
    cases x₂ with
    | nil =>
      simp only [List.nil_append, List.cons_append, List.cons.injEq] at h
      exact absurd (h.1 ▸ List.mem_cons_self _ _) h1
    | cons b bs =>
      simp only [List.cons_append, List.cons.injEq] at h
      obtain ⟨hx, hz⟩ := ih bs z₁ z₂ (fun hm => h1 (List.mem_cons_of_mem _ hm))
        (fun hm => h2 (List.mem_cons_of_mem _ hm)) h.2
      exact ⟨by rw [h.1, hx], hz⟩

theorem symbology_no_bar (bt : List Char) (h : bt ∈ symbologies) : '|' ∉ bt := by
  simp only [symbologies, List.mem_cons, List.mem_singleton, List.not_mem_nil, or_false] at h
  rcases h with h | h | h | h <;> subst h <;> decide

theorem format_length (it : List Char) (h : it ∈ formats) : it.length = 3 := by
  simp only [formats, List.mem_cons, List.mem_singleton, List.not_mem_nil, or_false] at h
  rcases h with h | h | h <;> subst h <;> rfl

/-- Two ETags are equal only if the six fields are equal, provided the symbologies contain
no `|` and the formats have the same length. -/
theorem etagOf_inj (bt₁ bt₂ : List Char) (w₁ w₂ h₁ h₂ l₁ l₂ : Int) (text₁ text₂ it₁ it₂ : List Char)
    (hb₁ : '|' ∉ bt₁) (hb₂ : '|' ∉ bt₂) (hlen : it₁.length = it₂.length)
    (h : etagOf bt₁ w₁ h₁ l₁ text₁ it₁ = etagOf bt₂ w₂ h₂ l₂ text₂ it₂) :
    bt₁ = bt₂ ∧ w₁ = w₂ ∧ h₁ = h₂ ∧ l₁ = l₂ ∧ text₁ = text₂ ∧ it₁ = it₂ := by
  simp only [etagOf, List.append_assoc, List.singleton_append, List.cons_append, List.nil_append,
    List.cons.injEq, true_and] at h
  obtain ⟨e1, h⟩ := append_sep_inj '|' _ _ _ _ hb₁ hb₂ h
  obtain ⟨e2, h⟩ := append_sep_inj '|' _ _ _ _ (fmtInt_no_bar w₁) (fmtInt_no_bar w₂) h
  obtain ⟨e3, h⟩ := append_sep_inj '|' _ _ _ _ (fmtInt_no_bar h₁) (fmtInt_no_bar h₂) h
  obtain ⟨e4, h⟩ := append_sep_inj '|' _ _ _ _ (fmtInt_no_bar l₁) (fmtInt_no_bar l₂) h
  have hl := congrArg List.length h
  simp only [List.length_append, List.length_cons, List.length_nil] at hl
  have htl : text₁.length = text₂.length := by omega
  obtain ⟨e5, h⟩ := List.append_inj h htl
  simp only [List.cons.injEq, true_and] at h
  obtain ⟨e6, _⟩ := List.append_inj h hlen
  exact ⟨e1, fmtInt_injective _ _ e2, fmtInt_injective _ _ e3, fmtInt_injective _ _ e4, e5, e6⟩

/-- C6: on the field tuples the barcode route can produce (symbology one of the four,
any integers, any text, format one of the three), the ETag determines the tuple: two
tuples have the same ETag exactly when the six fields are equal, also when the text
contains `|`. -/
theorem etagOf_injective (bt₁ bt₂ : List Char) (w₁ w₂ h₁ h₂ l₁ l₂ : Int)
    (text₁ text₂ it₁ it₂ : List Char)
    (hb₁ : bt₁ ∈ symbologies) (hb₂ : bt₂ ∈ symbologies) (hf₁ : it₁ ∈ formats) (hf₂ : it₂ ∈ formats) :
    etagOf bt₁ w₁ h₁ l₁ text₁ it₁ = etagOf bt₂ w₂ h₂ l₂ text₂ it₂ ↔
      bt₁ = bt₂ ∧ w₁ = w₂ ∧ h₁ = h₂ ∧ l₁ = l₂ ∧ text₁ = text₂ ∧ it₁ = it₂ := by
  constructor
  · exact etagOf_inj bt₁ bt₂ w₁ w₂ h₁ h₂ l₁ l₂ text₁ text₂ it₁ it₂ (symbology_no_bar _ hb₁)
      (symbology_no_bar _ hb₂) (by rw [format_length _ hf₁, format_length _ hf₂])
  · rintro ⟨rfl, rfl, rfl, rfl, rfl, rfl⟩
    rfl

/-- Witness of C6: `pdf417/200x100/DATA.gif` with security level 3 and with security level 4
have different ETags, and the first one has `3` as its fourth component. -/
theorem etagOf_injective_witness :
    "pdf417".toList ∈ symbologies ∧ "gif".toList ∈ formats ∧
    etagOf "pdf417".toList 200 100 3 "DATA".toList "gif".toList ≠
      etagOf "pdf417".toList 200 100 4 "DATA".toList "gif".toList ∧
    etagOf "pdf417".toList 200 100 3 "DATA".toList "gif".toList =
      [dquote] ++ "pdf417|200|100|3|DATA|gif".toList ++ [dquote] :=
  ⟨by decide, by decide,
    fun h => absurd ((etagOf_injective "pdf417".toList "pdf417".toList 200 200 100 100 3 4
      "DATA".toList "DATA".toList "gif".toList "gif".toList (by decide) (by decide) (by decide)
      (by decide)).mp h).2.2.2.1 (by decide),
    by decide⟩

/-! ## `strconv.Atoi` with the error ignored -/

theorem ParseInt_syntaxError (s : List Char) (h : (strconv.ParseInt s).2 = some strconv.NumError.ErrSyntax) :
    (strconv.ParseInt s).1 = 0 := by
  unfold strconv.ParseInt at h ⊢
  cases s with
  | nil => rfl
  | cons c cs =>
    simp only [] at h ⊢
    split_ifs at h ⊢ <;> simp_all

theorem ParseInt_rangeError (s : List Char) (h : (strconv.ParseInt s).2 = some strconv.NumError.ErrRange) :
    (strconv.ParseInt s).1 = if s.head? = some '-' then -(2 ^ 63 : Int) else 2 ^ 63 - 1 := by
  unfold strconv.ParseInt at h ⊢
  cases s with
  | nil => simp at h
  | cons c cs =>
    simp only [List.head?_cons, Option.some.injEq] at h ⊢
    by_cases hc : c = '-'
    · subst hc
      simp only [decide_True, Bool.true_eq_false, false_and, if_false, true_and] at h ⊢
      split_ifs at h ⊢ <;> simp_all [strconv.intSize]
    · simp only [hc, decide_False, Bool.false_eq_true, false_and, if_false, true_and] at h ⊢
      split_ifs at h ⊢ <;> simp_all [strconv.intSize]

/-- The fast path of `Atoi` reports syntax errors only, with value 0. -/
theorem Atoi_fast_path (c : Char) (digits : List Char) :
    ((if strconv.len digits < 1 then ((0 : Int), some strconv.NumError.ErrSyntax)
      else match strconv.AtoiFast digits 0 with
        | none => (0, some strconv.NumError.ErrSyntax)
        | some n => (if c = '-' then -n else n, none)).2 = some strconv.NumError.ErrSyntax →
     (if strconv.len digits < 1 then ((0 : Int), some strconv.NumError.ErrSyntax)
      else match strconv.AtoiFast digits 0 with
        | none => (0, some strconv.NumError.ErrSyntax)
        | some n => (if c = '-' then -n else n, none)).1 = 0) ∧
    (if strconv.len digits < 1 then ((0 : Int), some strconv.NumError.ErrSyntax)
      else match strconv.AtoiFast digits 0 with
        | none => (0, some strconv.NumError.ErrSyntax)
        | some n => (if c = '-' then -n else n, none)).2 ≠ some strconv.NumError.ErrRange := by
  by_cases hl : strconv.len digits < 1
  · simp [hl]
  · cases hf : strconv.AtoiFast digits 0 <;> simp [hl]

theorem Atoi_syntaxError (s : List Char) (h : (strconv.Atoi s).2 = some strconv.NumError.ErrSyntax) :
    (strconv.Atoi s).1 = 0 := by
  unfold strconv.Atoi at h ⊢
  simp only [] at h ⊢
  by_cases hfast : (strconv.intSize = 32 ∧ 0 < strconv.len s ∧ strconv.len s < 10) ∨
      (strconv.intSize = 64 ∧ 0 < strconv.len s ∧ strconv.len s < 19)
  · rw [if_pos hfast] at h ⊢
    cases s with
    | nil => rfl
    | cons c cs => exact (Atoi_fast_path c _).1 h
  · rw [if_neg hfast] at h ⊢
    exact ParseInt_syntaxError s h

theorem Atoi_rangeError (s : List Char) (h : (strconv.Atoi s).2 = some strconv.NumError.ErrRange) :
    (strconv.Atoi s).1 = if s.head? = some '-' then -(2 ^ 63 : Int) else 2 ^ 63 - 1 := by
  unfold strconv.Atoi at h ⊢
  simp only [] at h ⊢
  by_cases hfast : (strconv.intSize = 32 ∧ 0 < strconv.len s ∧ strconv.len s < 10) ∨
      (strconv.intSize = 64 ∧ 0 < strconv.len s ∧ strconv.len s < 19)
  · rw [if_pos hfast] at h ⊢
    cases s with
    | nil => simp at h
    | cons c cs => exact absurd h (Atoi_fast_path c _).2
  · rw [if_neg hfast] at h ⊢
    exact ParseInt_rangeError s h

theorem securityLevelOf_eq (bt : List Char) (r : http.Request) :
    securityLevelOf bt r =
      if bt = "pdf417".toList ∧ http.Values.Get r.Query "securityLevel".toList ≠ [] then
        (strconv.Atoi (http.Values.Get r.Query "securityLevel".toList)).1
      else 0 := by
  unfold securityLevelOf
  simp only []
  split_ifs <;> first | rfl | (exfalso; tauto)

theorem byte_bounds : byte (2 ^ 63 - 1) = 255 ∧ byte (-(2 ^ 63)) = 0 ∧ byte 0 = 0 := by
  refine ⟨by decide, by decide, by decide⟩

/-- On a request that is no cache hit the first call of a pdf417 request is
`pdf417.Encode` with the security level truncated to a byte. -/
theorem getBarcode_pdf417_call {Img : Type} (env : Collaborators Img) (r : http.Request)
    (wt ht text it : List Char)
    (hctx : r.ctx = some ["pdf417".toList, wt, ht, text, it])
    (hmiss : http.Values.Get r.Header "If-None-Match".toList ≠
      etagOf "pdf417".toList (strconv.Atoi wt).1 (strconv.Atoi ht).1
        (securityLevelOf "pdf417".toList r) text it) :
    ∃ rest, (getBarcode env World.fresh r).calls =
      Call.pdf417_Encode text (byte (securityLevelOf "pdf417".toList r)) :: rest := by
  rw [getBarcode_of_fields env World.fresh r "pdf417".toList wt ht text it hctx,
    getBarcodeFields_miss env World.fresh r "pdf417".toList wt ht text it hmiss]
  obtain ⟨c, hc, _, _, _, _, hpdf⟩ :=
    encodeSwitch_calls env World.fresh "pdf417".toList text (securityLevelOf "pdf417".toList r)
      (by decide)
  have hcv := hpdf rfl
  subst hcv
  cases herr : (encodeSwitch env World.fresh "pdf417".toList text
      (securityLevelOf "pdf417".toList r)).2.2 with
  | some m =>
    simp only []
    refine ⟨[], ?_⟩
    rw [(encode_error_world env "pdf417".toList text (securityLevelOf "pdf417".toList r) m).2.2.1, hc]
    rfl
  | none =>
    simp only []
    obtain ⟨_, _, _, cs, hcalls⟩ := encode_ok_world env "pdf417".toList text it
      (securityLevelOf "pdf417".toList r) (strconv.Atoi wt).1 (strconv.Atoi ht).1
      (etagOf "pdf417".toList (strconv.Atoi wt).1 (strconv.Atoi ht).1
        (securityLevelOf "pdf417".toList r) text it)
      (env.barcode_Scale (encodeSwitch env World.fresh "pdf417".toList text
        (securityLevelOf "pdf417".toList r)).2.1 (strconv.Atoi wt).1 (strconv.Atoi ht).1).1
    refine ⟨Call.barcode_Scale (strconv.Atoi wt).1 (strconv.Atoi ht).1 :: cs, ?_⟩
    rw [hcalls, hc]
    rfl

/-- C9 (amended): each numeric parameter of a barcode request is parsed by `strconv.Atoi`
with the error ignored, which gives 0 when `Atoi` reports a syntax error and the nearest
bound of `int` (2^63 - 1, or -2^63 for a text starting with a minus sign) when it reports
a range error; the security level is 0 when the symbology is not pdf417 or the query
parameter is absent or empty. The parsed width and height are the values in the ETag and
the arguments of `Scale`; the parsed security level is the value in the ETag, while
`pdf417.Encode` receives it truncated to a byte (its value modulo 256: 255 for 2^63 - 1,
0 for -2^63 and for 0). The parse failure does not reject the request: when it is no
cache hit the `Encode` call is made, and when `Encode` reports no error the answer is not
400. -/
theorem getBarcode_numeric_parameters {Img : Type} (env : Collaborators Img) (r : http.Request)
    (bt wt ht text it : List Char) (hctx : r.ctx = some [bt, wt, ht, text, it]) :
    (∀ s, (strconv.Atoi s).2 = some strconv.NumError.ErrSyntax → (strconv.Atoi s).1 = 0) ∧
    (∀ s, (strconv.Atoi s).2 = some strconv.NumError.ErrRange →
      (strconv.Atoi s).1 = if s.head? = some '-' then -(2 ^ 63 : Int) else 2 ^ 63 - 1) ∧
    (securityLevelOf bt r =
      if bt = "pdf417".toList ∧ http.Values.Get r.Query "securityLevel".toList ≠ [] then
        (strconv.Atoi (http.Values.Get r.Query "securityLevel".toList)).1
      else 0) ∧
    ((∀ n : Int, byte n = (n % 256).toNat) ∧ byte (2 ^ 63 - 1) = 255 ∧ byte (-(2 ^ 63)) = 0 ∧
      byte 0 = 0) ∧
    (http.Values.Get r.Header "If-None-Match".toList ≠
        etagOf bt (strconv.Atoi wt).1 (strconv.Atoi ht).1 (securityLevelOf bt r) text it →
      (bt = "pdf417".toList →
        ∃ rest, (getBarcode env World.fresh r).calls =
          Call.pdf417_Encode text
            (byte (if http.Values.Get r.Query "securityLevel".toList ≠ [] then
              (strconv.Atoi (http.Values.Get r.Query "securityLevel".toList)).1 else 0)) :: rest) ∧
      ((encodeSwitch env World.fresh bt text (securityLevelOf bt r)).2.2 = none →
        (getBarcode env World.fresh r).answer ≠ some 400 ∧
        (getBarcode env World.fresh r).w.header.lookup "Etag".toList =
          some (etagOf bt (strconv.Atoi wt).1 (strconv.Atoi ht).1
            (if bt = "pdf417".toList ∧ http.Values.Get r.Query "securityLevel".toList ≠ [] then
              (strconv.Atoi (http.Values.Get r.Query "securityLevel".toList)).1
            else 0) text it) ∧
        Call.barcode_Scale (strconv.Atoi wt).1 (strconv.Atoi ht).1 ∈
          (getBarcode env World.fresh r).calls)) := by
  refine ⟨Atoi_syntaxError, Atoi_rangeError, securityLevelOf_eq bt r,
    ⟨fun _ => rfl, byte_bounds⟩, fun hmiss => ⟨?_, fun hnone => ?_⟩⟩
  · intro hbt
    subst hbt
    have h := getBarcode_pdf417_call env r wt ht text it hctx hmiss
    have hl : securityLevelOf "pdf417".toList r =
        if http.Values.Get r.Query "securityLevel".toList ≠ [] then
          (strconv.Atoi (http.Values.Get r.Query "securityLevel".toList)).1 else 0 := by
      unfold securityLevelOf
      rw [if_pos rfl]
    rw [hl] at h
    exact h
  · rw [← securityLevelOf_eq bt r]
    rw [getBarcode_of_fields env World.fresh r bt wt ht text it hctx,
      getBarcodeFields_miss env World.fresh r bt wt ht text it hmiss]
    simp only [hnone]
    obtain ⟨hcode, h1, _, cs, hcalls⟩ := encode_ok_world env bt text it (securityLevelOf bt r)
      (strconv.Atoi wt).1 (strconv.Atoi ht).1
      (etagOf bt (strconv.Atoi wt).1 (strconv.Atoi ht).1 (securityLevelOf bt r) text it)
      (env.barcode_Scale (encodeSwitch env World.fresh bt text (securityLevelOf bt r)).2.1
        (strconv.Atoi wt).1 (strconv.Atoi ht).1).1
    refine ⟨?_, h1, ?_⟩
    · unfold World.answer
      split
      · simp
      · rw [hcode]; simp
    · rw [hcalls]
      simp

/-- Witness of C9: pdf417 with width `99999999999999999999` and
`securityLevel=99999999999999999999`: both parse to 9223372036854775807 with a range error,
`Scale` receives that width and `pdf417.Encode` receives the byte 255. -/
theorem getBarcode_numeric_parameters_witness :
    (barcodeRequest "/barcode/pdf417/99999999999999999999x100/DATA.gif"
        [("securityLevel".toList, "99999999999999999999".toList)] []).ctx =
      some ["pdf417".toList, "99999999999999999999".toList, "100".toList, "DATA".toList,
        "gif".toList] ∧
    (strconv.Atoi "99999999999999999999".toList).2 = some strconv.NumError.ErrRange ∧
    (strconv.Atoi "99999999999999999999".toList).1 = 2 ^ 63 - 1 ∧
    (∃ rest, (getBarcode sampleEnv World.fresh
      (barcodeRequest "/barcode/pdf417/99999999999999999999x100/DATA.gif"
        [("securityLevel".toList, "99999999999999999999".toList)] [])).calls =
      Call.pdf417_Encode "DATA".toList 255 :: rest) ∧
    (getBarcode sampleEnv World.fresh
      (barcodeRequest "/barcode/pdf417/99999999999999999999x100/DATA.gif"
        [("securityLevel".toList, "99999999999999999999".toList)] [])).answer ≠ some 400 ∧
    (getBarcode sampleEnv World.fresh
      (barcodeRequest "/barcode/pdf417/99999999999999999999x100/DATA.gif"
        [("securityLevel".toList, "99999999999999999999".toList)] [])).w.header.lookup
        "Etag".toList =
      some (etagOf "pdf417".toList 9223372036854775807 100 9223372036854775807 "DATA".toList
        "gif".toList) ∧
    Call.barcode_Scale (strconv.Atoi "99999999999999999999".toList).1
        (strconv.Atoi "100".toList).1 ∈
      (getBarcode sampleEnv World.fresh
        (barcodeRequest "/barcode/pdf417/99999999999999999999x100/DATA.gif"
          [("securityLevel".toList, "99999999999999999999".toList)] [])).calls :=
  have h := getBarcode_numeric_parameters sampleEnv
    (barcodeRequest "/barcode/pdf417/99999999999999999999x100/DATA.gif"
      [("securityLevel".toList, "99999999999999999999".toList)] [])
    "pdf417".toList "99999999999999999999".toList "100".toList "DATA".toList "gif".toList
    (by decide)
  have h5 := h.2.2.2.2 (by decide)
  have h6 := h5.2 (by decide)
  have hb : byte (if http.Values.Get
      (barcodeRequest "/barcode/pdf417/99999999999999999999x100/DATA.gif"
        [("securityLevel".toList, "99999999999999999999".toList)] []).Query
      "securityLevel".toList ≠ [] then
        (strconv.Atoi (http.Values.Get
          (barcodeRequest "/barcode/pdf417/99999999999999999999x100/DATA.gif"
            [("securityLevel".toList, "99999999999999999999".toList)] []).Query
          "securityLevel".toList)).1 else 0) = 255 := by decide
  ⟨by decide, by decide, (h.2.1 _ (by decide)).trans (by decide),
    hb ▸ h5.1 rfl, h6.1, h6.2.1.trans (by decide), h6.2.2⟩

/-- Counterexample to C9 as stated: for the width text `99999999999999999999` `Atoi` fails
(range error), and the value in the ETag and given to `Scale` is 9223372036854775807,
not 0. -/
theorem getBarcode_width_out_of_range :
    (strconv.Atoi "99999999999999999999".toList).2 = some strconv.NumError.ErrRange ∧
    (getBarcode sampleEnv World.fresh
      (barcodeRequest "/barcode/code128/99999999999999999999x100/HELLO.png" [] [])).w.header.lookup
        "Etag".toList =
      some (etagOf "code128".toList 9223372036854775807 100 0 "HELLO".toList "png".toList) ∧
    (getBarcode sampleEnv World.fresh
      (barcodeRequest "/barcode/code128/99999999999999999999x100/HELLO.png" [] [])).w.header.lookup
        "Etag".toList ≠
      some (etagOf "code128".toList 0 100 0 "HELLO".toList "png".toList) ∧
    (getBarcode sampleEnv World.fresh
      (barcodeRequest "/barcode/code128/99999999999999999999x100/HELLO.png" [] [])).calls =
      [Call.code128_Encode "HELLO".toList, Call.barcode_Scale 9223372036854775807 100,
        Call.png_Encode] := by
  refine ⟨by decide, by decide, by decide, by decide⟩

/-! ## What the ETag depends on -/

theorem imageSwitch_calls {Img : Type} (env : Collaborators Img) (s : World) (it : List Char)
    (img : Option Img) (hfmt : it ∈ formats) :
    ∃ i, (imageSwitch env s it img).calls = s.calls ++ [i] ∧
      (it = "gif".toList → i = Call.gif_Encode) ∧ (it = "jpg".toList → i = Call.jpeg_Encode) ∧
      (it = "png".toList → i = Call.png_Encode) := by
  simp only [formats, List.mem_cons, List.mem_singleton, List.not_mem_nil, or_false] at hfmt
  rcases hfmt with h | h | h <;> subst h
  · refine ⟨Call.gif_Encode, ?_, fun _ => rfl, ?_, ?_⟩
    · simp [imageSwitch, World.encodeImage, World.call, World.HeaderSet]
    · exact fun h => absurd h (by decide)
    · exact fun h => absurd h (by decide)
  · refine ⟨Call.jpeg_Encode, ?_, ?_, fun _ => rfl, ?_⟩
    · have h1 : "jpg".toList ≠ "gif".toList := by decide
      simp [imageSwitch, World.encodeImage, World.call, World.HeaderSet, h1]
    · exact fun h => absurd h (by decide)
    · exact fun h => absurd h (by decide)
  · refine ⟨Call.png_Encode, ?_, ?_, ?_, fun _ => rfl⟩
    · have h1 : "png".toList ≠ "gif".toList := by decide
      have h2 : "png".toList ≠ "jpg".toList := by decide
      simp [imageSwitch, World.encodeImage, World.call, World.HeaderSet, h1, h2]
    · exact fun h => absurd h (by decide)
    · exact fun h => absurd h (by decide)

/-- A request answered 200 went through the whole pipeline: the `Etag` header is the
computed one and the calls are `Encode`, `Scale` and the image encoder, in this order. -/
theorem getBarcode_ok_calls {Img : Type} (env : Collaborators Img) (r : http.Request)
    (bt wt ht text it : List Char) (hctx : r.ctx = some [bt, wt, ht, text, it])
    (hsym : bt ∈ symbologies) (hfmt : it ∈ formats)
    (h200 : (getBarcode env World.fresh r).answer = some 200) :
    (getBarcode env World.fresh r).w.header.lookup "Etag".toList =
      some (etagOf bt (strconv.Atoi wt).1 (strconv.Atoi ht).1 (securityLevelOf bt r) text it) ∧
    ∃ c i, (getBarcode env World.fresh r).calls =
        [c, Call.barcode_Scale (strconv.Atoi wt).1 (strconv.Atoi ht).1, i] ∧
      (bt = "code128".toList → c = Call.code128_Encode text) ∧
      (bt = "code39".toList → c = Call.code39_Encode text true false) ∧
      (bt = "ean".toList → c = Call.ean_Encode text) ∧
      (bt = "pdf417".toList → c = Call.pdf417_Encode text (byte (securityLevelOf bt r))) ∧
      (it = "gif".toList → i = Call.gif_Encode) ∧ (it = "jpg".toList → i = Call.jpeg_Encode) ∧
      (it = "png".toList → i = Call.png_Encode) := by
  rw [getBarcode_of_fields env World.fresh r bt wt ht text it hctx] at h200 ⊢
  by_cases hit : http.Values.Get r.Header "If-None-Match".toList =
      etagOf bt (strconv.Atoi wt).1 (strconv.Atoi ht).1 (securityLevelOf bt r) text it
  · rw [getBarcodeFields_hit env r bt wt ht text it hit] at h200
    exact absurd h200 (by decide)
  · rw [getBarcodeFields_miss env World.fresh r bt wt ht text it hit] at h200 ⊢
    cases herr : (encodeSwitch env World.fresh bt text (securityLevelOf bt r)).2.2 with
    | some m =>
      simp only [herr] at h200
      rw [(encode_error_world env bt text (securityLevelOf bt r) m).1] at h200
      exact absurd h200 (by decide)
    | none =>
      simp only []
      obtain ⟨_, h1, _, _⟩ := encode_ok_world env bt text it (securityLevelOf bt r)
        (strconv.Atoi wt).1 (strconv.Atoi ht).1
        (etagOf bt (strconv.Atoi wt).1 (strconv.Atoi ht).1 (securityLevelOf bt r) text it)
        (env.barcode_Scale (encodeSwitch env World.fresh bt text (securityLevelOf bt r)).2.1
          (strconv.Atoi wt).1 (strconv.Atoi ht).1).1
      obtain ⟨c, hc, _, hspec⟩ :=
        encodeSwitch_calls env World.fresh bt text (securityLevelOf bt r) hsym
      obtain ⟨i, hi, hispec⟩ := imageSwitch_calls env
        ((((encodeSwitch env World.fresh bt text (securityLevelOf bt r)).1.call
          (Call.barcode_Scale (strconv.Atoi wt).1 (strconv.Atoi ht).1)).HeaderSet "Etag".toList
          (etagOf bt (strconv.Atoi wt).1 (strconv.Atoi ht).1 (securityLevelOf bt r) text it)).HeaderSet
          "Cache-Control".toList "max-age=2592000".toList) it
        (env.barcode_Scale (encodeSwitch env World.fresh bt text (securityLevelOf bt r)).2.1
          (strconv.Atoi wt).1 (strconv.Atoi ht).1).1 hfmt
      refine ⟨h1, c, i, ?_, hspec.1, hspec.2.1, hspec.2.2.1, hspec.2.2.2, hispec⟩
      rw [hi]
      simp only [World.HeaderSet, World.call]
      rw [hc]
      rfl

theorem byte_inj (a b : Int) (ha : 0 ≤ a ∧ a < 256) (hb : 0 ≤ b ∧ b < 256) (h : byte a = byte b) :
    a = b := by
  unfold byte at h
  rw [Int.emod_eq_of_lt ha.1 ha.2, Int.emod_eq_of_lt hb.1 hb.2] at h
  omega

theorem securityLevelOf_other (bt : List Char) (r : http.Request) (h : bt ≠ "pdf417".toList) :
    securityLevelOf bt r = 0 := by
  unfold securityLevelOf
  rw [if_neg h]
theorem encode_call_inj (bt₁ bt₂ text₁ text₂ : List Char) (l₁ l₂ : Int) (c : Call)
    (hsym₁ : bt₁ ∈ symbologies) (hsym₂ : bt₂ ∈ symbologies)
    (a₁ : bt₁ = "code128".toList → c = Call.code128_Encode text₁)
    (b₁ : bt₁ = "code39".toList → c = Call.code39_Encode text₁ true false)
    (c₁ : bt₁ = "ean".toList → c = Call.ean_Encode text₁)
    (d₁ : bt₁ = "pdf417".toList → c = Call.pdf417_Encode text₁ (byte l₁))
    (a₂ : bt₂ = "code128".toList → c = Call.code128_Encode text₂)
    (b₂ : bt₂ = "code39".toList → c = Call.code39_Encode text₂ true false)
    (c₂ : bt₂ = "ean".toList → c = Call.ean_Encode text₂)
    (d₂ : bt₂ = "pdf417".toList → c = Call.pdf417_Encode text₂ (byte l₂)) :
    bt₁ = bt₂ ∧ text₁ = text₂ ∧ (bt₁ = "pdf417".toList → byte l₁ = byte l₂) := by
  simp only [symbologies, List.mem_cons, List.mem_singleton, List.not_mem_nil, or_false] at hsym₁ hsym₂
  rcases hsym₁ with h | h | h | h <;> rcases hsym₂ with h' | h' | h' | h' <;> subst h <;> subst h'
  all_goals
    first
    | (have e := (b₁ rfl).symm.trans (b₂ rfl); injection e with e1
       exact ⟨rfl, e1, fun h => absurd h (by decide)⟩)
    | (have e := (a₁ rfl).symm.trans (a₂ rfl); injection e with e1
       exact ⟨rfl, e1, fun h => absurd h (by decide)⟩)
    | (have e := (c₁ rfl).symm.trans (c₂ rfl); injection e with e1
       exact ⟨rfl, e1, fun h => absurd h (by decide)⟩)
    | (have e := (d₁ rfl).symm.trans (d₂ rfl); injection e with e1 e2
       exact ⟨rfl, e1, fun _ => e2⟩)
    | (exfalso; have e := (a₁ rfl).symm.trans (b₂ rfl); cases e)
    | (exfalso; have e := (a₁ rfl).symm.trans (c₂ rfl); cases e)
    | (exfalso; have e := (a₁ rfl).symm.trans (d₂ rfl); cases e)
    | (exfalso; have e := (b₁ rfl).symm.trans (a₂ rfl); cases e)
    | (exfalso; have e := (b₁ rfl).symm.trans (c₂ rfl); cases e)
    | (exfalso; have e := (b₁ rfl).symm.trans (d₂ rfl); cases e)
    | (exfalso; have e := (c₁ rfl).symm.trans (a₂ rfl); cases e)
    | (exfalso; have e := (c₁ rfl).symm.trans (b₂ rfl); cases e)
    | (exfalso; have e := (c₁ rfl).symm.trans (d₂ rfl); cases e)
    | (exfalso; have e := (d₁ rfl).symm.trans (a₂ rfl); cases e)
    | (exfalso; have e := (d₁ rfl).symm.trans (b₂ rfl); cases e)
    | (exfalso; have e := (d₁ rfl).symm.trans (c₂ rfl); cases e)

theorem image_call_inj (it₁ it₂ : List Char) (i : Call)
    (hfmt₁ : it₁ ∈ formats) (hfmt₂ : it₂ ∈ formats)
    (a₁ : it₁ = "gif".toList → i = Call.gif_Encode) (b₁ : it₁ = "jpg".toList → i = Call.jpeg_Encode)
    (c₁ : it₁ = "png".toList → i = Call.png_Encode)
    (a₂ : it₂ = "gif".toList → i = Call.gif_Encode) (b₂ : it₂ = "jpg".toList → i = Call.jpeg_Encode)
    (c₂ : it₂ = "png".toList → i = Call.png_Encode) : it₁ = it₂ := by
  simp only [formats, List.mem_cons, List.mem_singleton, List.not_mem_nil, or_false] at hfmt₁ hfmt₂
  rcases hfmt₁ with h | h | h <;> rcases hfmt₂ with h' | h' | h' <;> subst h <;> subst h'
  all_goals
    first
    | rfl
    | (exfalso; have e := (a₁ rfl).symm.trans (b₂ rfl); cases e)
    | (exfalso; have e := (a₁ rfl).symm.trans (c₂ rfl); cases e)
    | (exfalso; have e := (b₁ rfl).symm.trans (a₂ rfl); cases e)
    | (exfalso; have e := (b₁ rfl).symm.trans (c₂ rfl); cases e)
    | (exfalso; have e := (c₁ rfl).symm.trans (a₂ rfl); cases e)
    | (exfalso; have e := (c₁ rfl).symm.trans (b₂ rfl); cases e)

/-- C10 (amended): two barcode requests answered 200 that make the same collaborator calls
(same `Encode` call with the same text and, for pdf417, the same option byte; same `Scale`
arguments; same image encoder) have the same ETag, provided both security levels lie in
0..255, where the byte given to `Encode` determines the integer written in the ETag. For
a symbology other than pdf417 the security level is 0 whatever the query says, so the
`securityLevel` parameter changes the ETag only for pdf417. -/
theorem etag_of_equal_calls {Img : Type} (env : Collaborators Img) (r₁ r₂ : http.Request)
    (bt₁ wt₁ ht₁ text₁ it₁ bt₂ wt₂ ht₂ text₂ it₂ : List Char)
    (hctx₁ : r₁.ctx = some [bt₁, wt₁, ht₁, text₁, it₁])
    (hctx₂ : r₂.ctx = some [bt₂, wt₂, ht₂, text₂, it₂])
    (hsym₁ : bt₁ ∈ symbologies) (hsym₂ : bt₂ ∈ symbologies)
    (hfmt₁ : it₁ ∈ formats) (hfmt₂ : it₂ ∈ formats)
    (hok₁ : (getBarcode env World.fresh r₁).answer = some 200)
    (hok₂ : (getBarcode env World.fresh r₂).answer = some 200)
    (hcalls : (getBarcode env World.fresh r₁).calls = (getBarcode env World.fresh r₂).calls)
    (hl₁ : 0 ≤ securityLevelOf bt₁ r₁ ∧ securityLevelOf bt₁ r₁ < 256)
    (hl₂ : 0 ≤ securityLevelOf bt₂ r₂ ∧ securityLevelOf bt₂ r₂ < 256) :
    etagOf bt₁ (strconv.Atoi wt₁).1 (strconv.Atoi ht₁).1 (securityLevelOf bt₁ r₁) text₁ it₁ =
      etagOf bt₂ (strconv.Atoi wt₂).1 (strconv.Atoi ht₂).1 (securityLevelOf bt₂ r₂) text₂ it₂ ∧
    (getBarcode env World.fresh r₁).w.header.lookup "Etag".toList =
      (getBarcode env World.fresh r₂).w.header.lookup "Etag".toList ∧
    (bt₁ ≠ "pdf417".toList → ∀ q : http.Values, securityLevelOf bt₁ { r₁ with Query := q } = 0) := by
  obtain ⟨he₁, c₁, i₁, hc₁, sa₁, sb₁, sc₁, sd₁, ia₁, ib₁, ic₁⟩ :=
    getBarcode_ok_calls env r₁ bt₁ wt₁ ht₁ text₁ it₁ hctx₁ hsym₁ hfmt₁ hok₁
  obtain ⟨he₂, c₂, i₂, hc₂, sa₂, sb₂, sc₂, sd₂, ia₂, ib₂, ic₂⟩ :=
    getBarcode_ok_calls env r₂ bt₂ wt₂ ht₂ text₂ it₂ hctx₂ hsym₂ hfmt₂ hok₂
  rw [hc₁, hc₂] at hcalls
  simp only [List.cons.injEq, Call.barcode_Scale.injEq, and_true] at hcalls
  obtain ⟨hc, ⟨hw, hh⟩, hi⟩ := hcalls
  subst hc
  subst hi
  obtain ⟨hbt, htext, hbyte⟩ := encode_call_inj bt₁ bt₂ text₁ text₂ (securityLevelOf bt₁ r₁)
    (securityLevelOf bt₂ r₂) c₁ hsym₁ hsym₂ sa₁ sb₁ sc₁ sd₁ sa₂ sb₂ sc₂ sd₂
  have hit := image_call_inj it₁ it₂ i₁ hfmt₁ hfmt₂ ia₁ ib₁ ic₁ ia₂ ib₂ ic₂
  have hlvl : securityLevelOf bt₁ r₁ = securityLevelOf bt₂ r₂ := by
    by_cases hp : bt₁ = "pdf417".toList
    · exact byte_inj _ _ hl₁ hl₂ (hbyte hp)
    · rw [securityLevelOf_other bt₁ r₁ hp, securityLevelOf_other bt₂ r₂ (hbt ▸ hp)]
  have hetag : etagOf bt₁ (strconv.Atoi wt₁).1 (strconv.Atoi ht₁).1 (securityLevelOf bt₁ r₁) text₁ it₁ =
      etagOf bt₂ (strconv.Atoi wt₂).1 (strconv.Atoi ht₂).1 (securityLevelOf bt₂ r₂) text₂ it₂ := by
    rw [hlvl, hw, hh, htext, hit, hbt]
  refine ⟨hetag, ?_, fun hp q => securityLevelOf_other bt₁ _ hp⟩
  rw [he₁, he₂, hetag]

/-- Witness of C10: code128 with and without `?securityLevel=3`. -/
theorem etag_of_equal_calls_witness :
    (getBarcode sampleEnv World.fresh
      (barcodeRequest "/barcode/code128/300x100/HELLO.png" [] [])).calls =
    (getBarcode sampleEnv World.fresh
      (barcodeRequest "/barcode/code128/300x100/HELLO.png"
        [("securityLevel".toList, "3".toList)] [])).calls ∧
    (getBarcode sampleEnv World.fresh
      (barcodeRequest "/barcode/code128/300x100/HELLO.png" [] [])).w.header.lookup "Etag".toList =
    (getBarcode sampleEnv World.fresh
      (barcodeRequest "/barcode/code128/300x100/HELLO.png"
        [("securityLevel".toList, "3".toList)] [])).w.header.lookup "Etag".toList :=
  ⟨by decide,
    (etag_of_equal_calls sampleEnv
      (barcodeRequest "/barcode/code128/300x100/HELLO.png" [] [])
      (barcodeRequest "/barcode/code128/300x100/HELLO.png" [("securityLevel".toList, "3".toList)] [])
      "code128".toList "300".toList "100".toList "HELLO".toList "png".toList
      "code128".toList "300".toList "100".toList "HELLO".toList "png".toList
      (by decide) (by decide) (by decide) (by decide) (by decide) (by decide) (by decide) (by decide)
      (by decide) (by decide) (by decide)).2.1⟩

/-- Counterexample to C10 as stated: pdf417 with `securityLevel=0` and with
`securityLevel=256` make the same collaborator calls (`byte(256) = 0`) and are both
answered 200, with different ETags. -/
theorem etag_differs_for_equal_calls :
    (getBarcode sampleEnv World.fresh
      (barcodeRequest "/barcode/pdf417/200x100/DATA.gif" [("securityLevel".toList, "0".toList)] [])).calls =
    (getBarcode sampleEnv World.fresh
      (barcodeRequest "/barcode/pdf417/200x100/DATA.gif"
        [("securityLevel".toList, "256".toList)] [])).calls ∧
    (getBarcode sampleEnv World.fresh
      (barcodeRequest "/barcode/pdf417/200x100/DATA.gif"
        [("securityLevel".toList, "256".toList)] [])).calls =
      [Call.pdf417_Encode "DATA".toList 0, Call.barcode_Scale 200 100, Call.gif_Encode] ∧
    (getBarcode sampleEnv World.fresh
      (barcodeRequest "/barcode/pdf417/200x100/DATA.gif"
        [("securityLevel".toList, "0".toList)] [])).answer = some 200 ∧
    (getBarcode sampleEnv World.fresh
      (barcodeRequest "/barcode/pdf417/200x100/DATA.gif"
        [("securityLevel".toList, "256".toList)] [])).answer = some 200 ∧
    (getBarcode sampleEnv World.fresh
      (barcodeRequest "/barcode/pdf417/200x100/DATA.gif"
        [("securityLevel".toList, "0".toList)] [])).w.header.lookup "Etag".toList =
      some (etagOf "pdf417".toList 200 100 0 "DATA".toList "gif".toList) ∧
    (getBarcode sampleEnv World.fresh
      (barcodeRequest "/barcode/pdf417/200x100/DATA.gif"
        [("securityLevel".toList, "256".toList)] [])).w.header.lookup "Etag".toList =
      some (etagOf "pdf417".toList 200 100 256 "DATA".toList "gif".toList) ∧
    (getBarcode sampleEnv World.fresh
      (barcodeRequest "/barcode/pdf417/200x100/DATA.gif"
        [("securityLevel".toList, "0".toList)] [])).w.header.lookup "Etag".toList ≠
    (getBarcode sampleEnv World.fresh
      (barcodeRequest "/barcode/pdf417/200x100/DATA.gif"
        [("securityLevel".toList, "256".toList)] [])).w.header.lookup "Etag".toList := by
  refine ⟨by decide, by decide, by decide, by decide, by decide, by decide, by decide⟩

/-! ## The matcher on the two registered patterns -/

/-- The thread after `eat`: one character passing the test is consumed. -/
theorem mem_eat (t u : regexp.Thread) (ok : Char → Bool) :
    u ∈ t.eat ok ↔ ∃ c, ok c = true ∧ t.rest = c :: u.rest ∧ u.pos = t.pos + 1 ∧ u.caps = t.caps := by
  unfold regexp.Thread.eat
  cases hr : t.rest with
  | nil => simp
  | cons c cs =>
    simp only []
    by_cases hok : ok c = true
    · simp only [hok, if_true, List.mem_singleton, List.cons.injEq]
      constructor
      · rintro rfl
        exact ⟨c, hok, ⟨rfl, rfl⟩, rfl, rfl⟩
      · rintro ⟨c', _, ⟨rfl, hcs⟩, hp, hc⟩
        cases u
        simp only [regexp.Thread.mk.injEq]
        simp only at hcs hp hc
        exact ⟨hp, hcs.symm, hc⟩
    · have hok' : ok c = false := by simpa using hok
      simp only [hok', Bool.false_eq_true, if_false, List.not_mem_nil, List.cons.injEq, false_iff,
        not_exists, not_and]
      rintro c' hc' ⟨rfl, _⟩
      exact absurd hc' hok

/-- A literal consumes exactly its character and leaves the captures alone. -/
theorem mem_run_literal (t u : regexp.Thread) (c : Char) :
    u ∈ (regexp.Expr.literal c).run t ↔
      t.rest = [c] ++ u.rest ∧ u.pos = t.pos + [c].length ∧ u.caps = t.caps := by
  simp only [regexp.Expr.run, mem_eat, decide_eq_true_eq]
  constructor
  · rintro ⟨c', rfl, h1, h2, h3⟩; exact ⟨h1, h2, h3⟩
  · rintro ⟨h1, h2, h3⟩; exact ⟨c, rfl, h1, h2, h3⟩

theorem run_mkConcat_cons (e : regexp.Expr) (es : List regexp.Expr) (t : regexp.Thread) :
    (regexp.mkConcat (e :: es)).run t = (e.run t).flatMap (regexp.mkConcat es).run := by
  cases es with
  | nil =>
    simp only [regexp.mkConcat]
    have : (regexp.Expr.emptyMatch).run = fun u => [u] := by funext u; simp [regexp.Expr.run]
    rw [this]
    induction e.run t with
    | nil => rfl
    | cons a l ih => simp [List.flatMap_cons] at ih ⊢
  | cons e' es' => simp [regexp.mkConcat, regexp.Expr.run]

theorem mem_run_mkConcat_cons (e : regexp.Expr) (es : List regexp.Expr) (t u : regexp.Thread) :
    u ∈ (regexp.mkConcat (e :: es)).run t ↔ ∃ v ∈ e.run t, u ∈ (regexp.mkConcat es).run v := by
  rw [run_mkConcat_cons, List.mem_flatMap]

/-- A sequence of literals followed by `es` matches when the literals are a prefix of the
input and `es` matches after them. -/
theorem mem_run_literals (cs : List Char) (es : List regexp.Expr) : ∀ (t u : regexp.Thread),
    u ∈ (regexp.mkConcat (cs.map regexp.Expr.literal ++ es)).run t ↔
      ∃ v : regexp.Thread, t.rest = cs ++ v.rest ∧ v.pos = t.pos + cs.length ∧ v.caps = t.caps ∧
        u ∈ (regexp.mkConcat es).run v := by
  induction cs with
  | nil =>
    intro t u
    simp only [List.map_nil, List.nil_append, List.length_nil, Nat.add_zero]
    constructor
    · intro h; exact ⟨t, rfl, rfl, rfl, h⟩
    · rintro ⟨v, h1, h2, h3, h⟩
      have : v = t := by cases v; cases t; simp_all
      rw [← this]; exact h
  | cons c cs ih =>
    intro t u
    simp only [List.map_cons, List.cons_append]
    rw [mem_run_mkConcat_cons]
    constructor
    · rintro ⟨v, hv, hu⟩
      rw [mem_run_literal] at hv
      obtain ⟨w, h1, h2, h3, h⟩ := (ih v u).mp hu
      refine ⟨w, ?_, ?_, ?_, h⟩
      · rw [hv.1, h1]; simp
      · rw [h2, hv.2.1]; simp; omega
      · rw [h3, hv.2.2]
    · rintro ⟨w, h1, h2, h3, h⟩
      refine ⟨⟨t.pos + 1, cs ++ w.rest, t.caps⟩, ?_, ?_⟩
      · rw [mem_run_literal]; exact ⟨by simpa using h1, rfl, rfl⟩
      · rw [ih]
        refine ⟨w, rfl, ?_, h3, h⟩
        rw [h2]; simp; omega

theorem Consumes_nil (t u : regexp.Thread) (h : regexp.Consumes t [] u) (hc : u.caps = t.caps) :
    u = t := by
  obtain ⟨h1, h2⟩ := h
  cases u; cases t
  simp only [List.nil_append, List.length_nil, Nat.add_zero] at h1 h2 hc
  simp only [regexp.Thread.mk.injEq]
  exact ⟨h2, h1.symm, hc⟩

theorem Consumes_trans (t v u : regexp.Thread) (a b : List Char)
    (h1 : regexp.Consumes t a v) (h2 : regexp.Consumes v b u) : regexp.Consumes t (a ++ b) u := by
  refine ⟨?_, ?_⟩
  · rw [h1.1, h2.1, List.append_assoc]
  · rw [h2.2, h1.2, List.length_append, Nat.add_assoc]

theorem mem_run_literal_iff (t u : regexp.Thread) (c : Char) :
    u ∈ (regexp.Expr.literal c).run t ↔ regexp.Consumes t [c] u ∧ u.caps = t.caps := by
  rw [mem_run_literal]
  unfold regexp.Consumes
  tauto

/-- A literal string on its own. -/
theorem mem_run_lit (s : String) (t u : regexp.Thread) :
    u ∈ (regexp.lit s).run t ↔ regexp.Consumes t s.toList u ∧ u.caps = t.caps := by
  have h := mem_run_literals s.toList [] t u
  simp only [List.append_nil] at h
  unfold regexp.lit regexp.lits
  rw [h]
  simp only [regexp.mkConcat, regexp.Expr.run, List.mem_singleton]
  unfold regexp.Consumes
  constructor
  · rintro ⟨v, h1, h2, h3, rfl⟩; exact ⟨⟨h1, h2⟩, h3⟩
  · rintro ⟨⟨h1, h2⟩, h3⟩; exact ⟨u, h1, h2, h3, rfl⟩

theorem mem_run_capture (i : Nat) (e : regexp.Expr) (t u : regexp.Thread) :
    u ∈ (regexp.Expr.capture i e).run t ↔
      ∃ v ∈ e.run t, u = { v with caps := v.caps.set (i - 1) (t.rest.take (v.pos - t.pos)) } := by
  simp only [regexp.Expr.run, List.mem_map]
  constructor
  · rintro ⟨v, hv, rfl⟩; exact ⟨v, hv, rfl⟩
  · rintro ⟨v, hv, rfl⟩; exact ⟨v, hv, rfl⟩

/-- A capture group around an expression that consumes `s` and leaves the captures alone
records `s`. -/
theorem mem_run_capture_of (i : Nat) (e : regexp.Expr) (P : List Char → Prop)
    (he : ∀ t v : regexp.Thread, v ∈ e.run t ↔ ∃ s, P s ∧ regexp.Consumes t s v ∧ v.caps = t.caps)
    (t u : regexp.Thread) :
    u ∈ (regexp.Expr.capture i e).run t ↔
      ∃ s, P s ∧ regexp.Consumes t s u ∧ u.caps = t.caps.set (i - 1) s := by
  rw [mem_run_capture]
  constructor
  · rintro ⟨v, hv, rfl⟩
    obtain ⟨s, hP, hcons, hcaps⟩ := (he t v).mp hv
    refine ⟨s, hP, hcons, ?_⟩
    simp only [hcaps]
    rw [hcons.1, hcons.2]
    simp
  · rintro ⟨s, hP, hcons, hcaps⟩
    refine ⟨{ u with caps := t.caps }, (he t _).mpr ⟨s, hP, hcons, rfl⟩, ?_⟩
    cases u
    simp only [regexp.Thread.mk.injEq, true_and]
    simp only at hcaps
    rw [hcaps, hcons.1]
    have := hcons.2
    simp only at this
    rw [this]
    simp

/-- Greedy iteration of a one-character test: one or more characters passing the test. -/
theorem mem_iterate_eat (ok : Char → Bool) : ∀ (fuel : Nat) (t u : regexp.Thread),
    t.rest.length < fuel →
    (u ∈ regexp.iterate (fun x => x.eat ok) fuel t ↔
      ∃ s, (s ≠ [] ∧ ∀ c ∈ s, ok c = true) ∧ regexp.Consumes t s u ∧ u.caps = t.caps) := by
  intro fuel
  induction fuel with
  | zero => intro t u h; omega
  | succ fuel ih =>
    intro t u hfuel
    simp only [regexp.iterate, List.mem_flatMap, mem_eat, List.mem_append, List.mem_singleton]
    constructor
    · rintro ⟨v, ⟨c, hc, hr, hp, hcaps⟩, hu⟩
      have hlt : v.rest.length < t.rest.length := by rw [hr]; simp
      rcases hu with hu | hu
      · rw [if_pos hlt] at hu
        obtain ⟨s, ⟨_, hall⟩, hcons, hcaps'⟩ := (ih v u (by omega)).mp hu
        refine ⟨c :: s, ⟨by simp, ?_⟩, ?_, by rw [hcaps', hcaps]⟩
        · intro x hx
          rcases List.mem_cons.mp hx with h | h
          · rw [h]; exact hc
          · exact hall x h
        · exact Consumes_trans t v u [c] s ⟨hr, hp⟩ hcons
      · subst hu
        exact ⟨[c], ⟨by simp, by simpa using hc⟩, ⟨hr, hp⟩, hcaps⟩
    · rintro ⟨s, ⟨hne, hall⟩, hcons, hcaps⟩
      cases s with
      | nil => exact absurd rfl hne
      | cons c s' =>
        have hc : ok c = true := hall c (List.mem_cons_self _ _)
        by_cases hs' : s' = []
        · subst hs'
          exact ⟨u, ⟨c, hc, hcons.1, hcons.2, hcaps⟩, Or.inr rfl⟩
        · refine ⟨⟨t.pos + 1, s' ++ u.rest, t.caps⟩, ⟨c, hc, by simpa using hcons.1, rfl, rfl⟩, Or.inl ?_⟩
          have hlt : (s' ++ u.rest).length < t.rest.length := by rw [hcons.1]; simp
          simp only [hlt, if_true]
          refine (ih _ u (by simp only; omega)).mpr ⟨s', ⟨hs', fun x hx => hall x (List.mem_cons_of_mem _ hx)⟩,
            ⟨rfl, ?_⟩, hcaps⟩
          rw [hcons.2]; simp; omega

theorem mem_run_plus_class (neg : Bool) (items : List (Char × Char)) (t u : regexp.Thread) :
    u ∈ (regexp.Expr.plus (regexp.Expr.charClass neg items)).run t ↔
      ∃ s, (s ≠ [] ∧ ∀ c ∈ s, regexp.inClass neg items c = true) ∧ regexp.Consumes t s u ∧
        u.caps = t.caps := by
  have h := mem_iterate_eat (regexp.inClass neg items) (t.rest.length + 1) t u (Nat.lt_succ_self _)
  rw [← h]
  simp only [regexp.Expr.run]

theorem run_anchored (es : List regexp.Expr) (t : regexp.Thread) :
    (regexp.mkConcat (regexp.Expr.beginText :: es)).run t =
      if t.pos = 0 then (regexp.mkConcat es).run t else [] := by
  rw [run_mkConcat_cons]
  simp only [regexp.Expr.run]
  split <;> simp

theorem search_anchored (e : regexp.Expr) (n : Nat)
    (hanch : ∀ t : regexp.Thread, 0 < t.pos → e.run t = []) :
    ∀ (rest : List Char) (pos : Nat), 0 < pos → regexp.search e n pos rest = none := by
  intro rest
  induction rest with
  | nil =>
    intro pos hpos
    simp only [regexp.search]
    rw [hanch _ hpos]
    rfl
  | cons c cs ih =>
    intro pos hpos
    simp only [regexp.search]
    rw [hanch _ hpos]
    exact ih (pos + 1) (Nat.succ_pos _)

/-- For an expression that only matches at offset 0, `FindStringSubmatch` is decided by the
first thread of the run from the start of the text. -/
theorem FindStringSubmatch_anchored (e : regexp.Expr) (n : Nat)
    (hanch : ∀ t : regexp.Thread, 0 < t.pos → e.run t = []) (s : List Char) :
    regexp.Regexp.FindStringSubmatch { expr := e, numSubexp := n } s =
      match (e.run { pos := 0, rest := s, caps := List.replicate n [] }).head? with
      | some t => s.take t.pos :: t.caps
      | none => [] := by
  unfold regexp.Regexp.FindStringSubmatch
  simp only []
  cases hh : (e.run { pos := 0, rest := s, caps := List.replicate n [] }).head? with
  | some t =>
    have : regexp.search e n 0 s = some (0, t) := by
      cases s with
      | nil => simp only [regexp.search]; rw [hh]
      | cons c cs => simp only [regexp.search]; rw [hh]
    rw [this]
    simp
  | none =>
    have : regexp.search e n 0 s = none := by
      cases s with
      | nil => simp only [regexp.search]; rw [hh]
      | cons c cs =>
        simp only [regexp.search]
        rw [hh]
        exact search_anchored e n hanch cs 1 (by decide)
    rw [this]

theorem matches_anchored_iff (e : regexp.Expr) (n : Nat)
    (hanch : ∀ t : regexp.Thread, 0 < t.pos → e.run t = []) (s : List Char) :
    0 < (regexp.Regexp.FindStringSubmatch { expr := e, numSubexp := n } s).length ↔
      ∃ u, u ∈ e.run { pos := 0, rest := s, caps := List.replicate n [] } := by
  rw [FindStringSubmatch_anchored e n hanch s]
  cases hl : e.run { pos := 0, rest := s, caps := List.replicate n [] } with
  | nil => simp
  | cons a l => simp

theorem mem_run_endText (t u : regexp.Thread) :
    u ∈ (regexp.mkConcat [regexp.Expr.endText]).run t ↔ t.rest = [] ∧ u = t := by
  simp only [regexp.mkConcat, regexp.Expr.run]
  split <;> simp_all

/-- The threads of the favicon pattern: the text is `/favicon`, one character other than a
newline, then `ico`. -/
theorem mem_run_faviconExpr (t u : regexp.Thread) :
    u ∈ faviconExpr.run t ↔
      t.pos = 0 ∧ ∃ c, c ≠ Char.ofNat 10 ∧ t.rest = "/favicon".toList ++ [c] ++ "ico".toList ∧
        u = { pos := 12, rest := [], caps := t.caps } := by
  have hshape : faviconExpr = regexp.mkConcat (regexp.Expr.beginText ::
      ("/favicon".toList.map regexp.Expr.literal ++ (regexp.Expr.anyCharNotNL ::
        ("ico".toList.map regexp.Expr.literal ++ [regexp.Expr.endText])))) := rfl
  rw [hshape, run_anchored]
  by_cases hpos : t.pos = 0
  · simp only [hpos, if_true, true_and]
    rw [mem_run_literals]
    constructor
    · rintro ⟨v, h1, h2, h3, hu⟩
      rw [mem_run_mkConcat_cons] at hu
      obtain ⟨w, hw, hu⟩ := hu
      simp only [regexp.Expr.run, mem_eat, decide_eq_true_eq] at hw
      obtain ⟨c, hc, hw1, hw2, hw3⟩ := hw
      rw [mem_run_literals] at hu
      obtain ⟨x, hx1, hx2, hx3, hu⟩ := hu
      rw [mem_run_endText] at hu
      obtain ⟨hx, rfl⟩ := hu
      refine ⟨c, hc, ?_, ?_⟩
      · rw [h1, hw1, hx1, hx]; simp
      · cases u
        simp only [regexp.Thread.mk.injEq]
        simp only at hx hx2 hx3
        refine ⟨?_, hx, ?_⟩
        · rw [hx2, hw2, h2, hpos]; rfl
        · rw [hx3, hw3, h3]
    · rintro ⟨c, hc, hrest, rfl⟩
      refine ⟨⟨8, [c] ++ "ico".toList, t.caps⟩, by simpa using hrest, by rw [hpos]; rfl, rfl, ?_⟩
      rw [mem_run_mkConcat_cons]
      refine ⟨⟨9, "ico".toList, t.caps⟩, ?_, ?_⟩
      · simp only [regexp.Expr.run, mem_eat, decide_eq_true_eq]
        exact ⟨c, hc, by simp⟩
      · rw [mem_run_literals]
        exact ⟨⟨12, [], t.caps⟩, rfl, rfl, rfl, (mem_run_endText _ _).mpr ⟨rfl, rfl⟩⟩
  · simp only [hpos, if_false, List.not_mem_nil, false_and]

theorem faviconExpr_anchored (t : regexp.Thread) (h : 0 < t.pos) : faviconExpr.run t = [] := by
  apply List.eq_nil_iff_forall_not_mem.mpr
  intro u hu
  rw [mem_run_faviconExpr] at hu
  omega

/-- The paths the favicon route matches: `/favicon`, any one character except a newline,
`ico`. -/
theorem faviconRoute_matchesPath_iff (path : List Char) :
    faviconRoute.matchesPath path ↔
      ∃ c, c ≠ Char.ofNat 10 ∧ path = "/favicon".toList ++ [c] ++ "ico".toList := by
  unfold route.matchesPath faviconRoute
  simp only []
  rw [matches_anchored_iff faviconExpr 0 faviconExpr_anchored]
  constructor
  · rintro ⟨u, hu⟩
    rw [mem_run_faviconExpr] at hu
    obtain ⟨_, c, hc, hrest, _⟩ := hu
    exact ⟨c, hc, hrest⟩
  · rintro ⟨c, hc, hp⟩
    refine ⟨⟨12, [], List.replicate 0 []⟩, ?_⟩
    rw [mem_run_faviconExpr]
    exact ⟨rfl, c, hc, hp, rfl⟩

/-- A thread is determined by what it consumed and its captures. -/
theorem Segment_of_Consumes (e : regexp.Expr) (P : List Char → Prop)
    (f : List (List Char) → List Char → List (List Char))
    (h : ∀ t v : regexp.Thread, v ∈ e.run t ↔ ∃ s, P s ∧ regexp.Consumes t s v ∧ v.caps = f t.caps s) :
    regexp.Segment e P f := by
  intro pos rest caps v
  rw [h]
  unfold regexp.Consumes
  constructor
  · rintro ⟨s, hP, ⟨h1, h2⟩, h3⟩
    refine ⟨s, v.rest, hP, h1, ?_⟩
    cases v
    simp only [regexp.Thread.mk.injEq]
    exact ⟨h2, trivial, h3⟩
  · rintro ⟨s, r, hP, h1, rfl⟩
    exact ⟨s, hP, ⟨h1, rfl⟩, rfl⟩

theorem Segment_chain (e : regexp.Expr) (P : List Char → Prop)
    (f : List (List Char) → List Char → List (List Char)) (hseg : regexp.Segment e P f)
    (es : List regexp.Expr) (pos : Nat) (rest : List Char) (caps : List (List Char))
    (u : regexp.Thread) :
    u ∈ (regexp.mkConcat (e :: es)).run { pos := pos, rest := rest, caps := caps } ↔
      ∃ s r, P s ∧ rest = s ++ r ∧
        u ∈ (regexp.mkConcat es).run { pos := pos + s.length, rest := r, caps := f caps s } := by
  rw [mem_run_mkConcat_cons]
  constructor
  · rintro ⟨v, hv, hu⟩
    obtain ⟨s, r, hP, hr, rfl⟩ := (hseg pos rest caps v).mp hv
    exact ⟨s, r, hP, hr, hu⟩
  · rintro ⟨s, r, hP, hr, hu⟩
    exact ⟨_, (hseg pos rest caps _).mpr ⟨s, r, hP, hr, rfl⟩, hu⟩

theorem mem_run_alternate (a b : regexp.Expr) (t u : regexp.Thread) :
    u ∈ (regexp.Expr.alternate a b).run t ↔ u ∈ a.run t ∨ u ∈ b.run t := by
  simp only [regexp.Expr.run, List.mem_append]

theorem Segment_literal (c : Char) :
    regexp.Segment (regexp.Expr.literal c) (fun s => s = [c]) (fun caps _ => caps) := by
  apply Segment_of_Consumes
  intro t v
  rw [mem_run_literal_iff]
  constructor
  · rintro ⟨h1, h2⟩; exact ⟨[c], rfl, h1, h2⟩
  · rintro ⟨s, rfl, h1, h2⟩; exact ⟨h1, h2⟩

theorem Segment_capture_class (i : Nat) (neg : Bool) (items : List (Char × Char)) :
    regexp.Segment (regexp.Expr.capture i (regexp.Expr.plus (regexp.Expr.charClass neg items)))
      (fun s => s ≠ [] ∧ ∀ c ∈ s, regexp.inClass neg items c = true)
      (fun caps s => caps.set (i - 1) s) := by
  apply Segment_of_Consumes
  exact mem_run_capture_of i _ _ (mem_run_plus_class neg items)

theorem Segment_capture_symbology :
    regexp.Segment (regexp.Expr.capture 1 (regexp.mkAlternate
        [regexp.lit "code39", regexp.lit "code128", regexp.lit "ean", regexp.lit "pdf417"]))
      (fun s => s ∈ symbologies) (fun caps s => caps.set 0 s) := by
  apply Segment_of_Consumes
  apply mem_run_capture_of 1 _ (fun s => s ∈ symbologies)
  intro t v
  simp only [regexp.mkAlternate, mem_run_alternate, mem_run_lit, symbologies,
    List.mem_cons, List.mem_singleton, List.not_mem_nil, or_false]
  constructor
  · rintro (h | h | h | h)
    · exact ⟨_, Or.inl rfl, h⟩
    · exact ⟨_, Or.inr (Or.inl rfl), h⟩
    · exact ⟨_, Or.inr (Or.inr (Or.inl rfl)), h⟩
    · exact ⟨_, Or.inr (Or.inr (Or.inr rfl)), h⟩
  · rintro ⟨s, (rfl | rfl | rfl | rfl), h⟩
    · exact Or.inl h
    · exact Or.inr (Or.inl h)
    · exact Or.inr (Or.inr (Or.inl h))
    · exact Or.inr (Or.inr (Or.inr h))

theorem Segment_capture_format :
    regexp.Segment (regexp.Expr.capture 5 (regexp.mkAlternate
        [regexp.lit "gif", regexp.lit "jpg", regexp.lit "png"]))
      (fun s => s ∈ formats) (fun caps s => caps.set 4 s) := by
  apply Segment_of_Consumes
  apply mem_run_capture_of 5 _ (fun s => s ∈ formats)
  intro t v
  simp only [regexp.mkAlternate, mem_run_alternate, mem_run_lit, formats,
    List.mem_cons, List.mem_singleton, List.not_mem_nil, or_false]
  constructor
  · rintro (h | h | h)
    · exact ⟨_, Or.inl rfl, h⟩
    · exact ⟨_, Or.inr (Or.inl rfl), h⟩
    · exact ⟨_, Or.inr (Or.inr rfl), h⟩
  · rintro ⟨s, (rfl | rfl | rfl), h⟩
    · exact Or.inl h
    · exact Or.inr (Or.inl h)
    · exact Or.inr (Or.inr h)

theorem inClass_digit (c : Char) :
    regexp.inClass false [('0', '9')] c = strconv.isDigit c := by
  simp only [regexp.inClass, strconv.isDigit, List.any_cons, List.any_nil, Bool.or_false]
  have h0 : ('0' : Char).toNat = 48 := rfl
  have h9 : ('9' : Char).toNat = 57 := rfl
  rw [h0, h9]
  simp

theorem inClass_not_slash (c : Char) :
    regexp.inClass true [('/', '/')] c = true ↔ c ≠ '/' := by
  simp only [regexp.inClass, List.any_cons, List.any_nil, Bool.or_false]
  have h0 : ('/' : Char).toNat = 47 := rfl
  rw [h0]
  constructor
  · intro h hc
    rw [hc, h0] at h
    simp at h
  · intro h
    have hne : c.toNat ≠ 47 := fun h47 => h (by rw [← Char.ofNat_toNat c, h47])
    have hf : (decide (47 ≤ c.toNat) && decide (c.toNat ≤ 47)) = false := by
      rw [Bool.and_eq_false_iff, decide_eq_false_iff_not, decide_eq_false_iff_not]
      omega
    rw [hf]
    rfl

theorem all_not_slash (s : List Char) :
    (∀ c ∈ s, regexp.inClass true [('/', '/')] c = true) ↔ '/' ∉ s := by
  constructor
  · intro h hm
    exact (inClass_not_slash _).mp (h _ hm) rfl
  · intro h c hc
    exact (inClass_not_slash c).mpr (fun e => h (e ▸ hc))

/-- The threads of the barcode pattern: the text has the form of a barcode path, it is
consumed entirely, and the five capture groups hold its five fields. -/
theorem mem_run_barcodeExpr (pos : Nat) (path : List Char) (caps : List (List Char))
    (u : regexp.Thread) :
    u ∈ barcodeExpr.run { pos := pos, rest := path, caps := caps } ↔
      pos = 0 ∧ ∃ sym w h text fmt, BarcodePath path sym w h text fmt ∧
        u = { pos := path.length, rest := [],
              caps := ((((caps.set 0 sym).set 1 w).set 2 h).set 3 text).set 4 fmt } := by
  have hshape : barcodeExpr = regexp.mkConcat (regexp.Expr.beginText ::
      ("/barcode/".toList.map regexp.Expr.literal ++ barcodeTail)) := rfl
  rw [hshape, run_anchored]
  by_cases hpos : pos = 0
  swap
  · simp only [hpos, if_false, List.not_mem_nil, false_and]
  subst hpos
  simp only [if_true, true_and]
  rw [mem_run_literals]
  unfold barcodeTail BarcodePath
  constructor
  · rintro ⟨v, h1, h2, h3, hu⟩
    obtain ⟨vpos, vrest, vcaps⟩ := v
    simp only at h1 h2 h3
    subst h2 h3
    rw [Segment_chain _ _ _ Segment_capture_symbology] at hu
    obtain ⟨sym, r1, hsym, hr1, hu⟩ := hu
    rw [Segment_chain _ _ _ (Segment_literal '/')] at hu
    obtain ⟨_, r2, rfl, hr2, hu⟩ := hu
    rw [Segment_chain _ _ _ (Segment_capture_class 2 false [('0', '9')])] at hu
    obtain ⟨w, r3, hw, hr3, hu⟩ := hu
    rw [Segment_chain _ _ _ (Segment_literal 'x')] at hu
    obtain ⟨_, r4, rfl, hr4, hu⟩ := hu
    rw [Segment_chain _ _ _ (Segment_capture_class 3 false [('0', '9')])] at hu
    obtain ⟨h, r5, hh, hr5, hu⟩ := hu
    rw [Segment_chain _ _ _ (Segment_literal '/')] at hu
    obtain ⟨_, r6, rfl, hr6, hu⟩ := hu
    rw [Segment_chain _ _ _ (Segment_capture_class 4 true [('/', '/')])] at hu
    obtain ⟨text, r7, htext, hr7, hu⟩ := hu
    rw [Segment_chain _ _ _ (Segment_literal '.')] at hu
    obtain ⟨_, r8, rfl, hr8, hu⟩ := hu
    rw [Segment_chain _ _ _ Segment_capture_format] at hu
    obtain ⟨fmt, r9, hfmt, hr9, hu⟩ := hu
    rw [mem_run_endText] at hu
    obtain ⟨hend, rfl⟩ := hu
    simp only at hend
    subst hend
    subst hr9 hr8 hr7 hr6 hr5 hr4 hr3 hr2 hr1
    refine ⟨sym, w, h, text, fmt, ⟨hsym, ⟨hw.1, ?_⟩, ⟨hh.1, ?_⟩, ⟨htext.1, ?_⟩, hfmt, ?_⟩, ?_⟩
    · intro c hc; rw [← inClass_digit]; exact hw.2 c hc
    · intro c hc; rw [← inClass_digit]; exact hh.2 c hc
    · exact (all_not_slash text).mp htext.2
    · rw [h1]; simp
    · simp only [regexp.Thread.mk.injEq, and_true]
      rw [h1]
      simp
      omega
  · rintro ⟨sym, w, h, text, fmt, ⟨hsym, hw, hh, htext, hfmt, hpath⟩, rfl⟩
    refine ⟨⟨9, sym ++ ('/' :: (w ++ ('x' :: (h ++ ('/' :: (text ++ ('.' :: fmt))))))),
      caps⟩, by rw [hpath]; simp, rfl, rfl, ?_⟩
    rw [Segment_chain _ _ _ Segment_capture_symbology]
    refine ⟨sym, _, hsym, rfl, ?_⟩
    rw [Segment_chain _ _ _ (Segment_literal '/')]
    refine ⟨_, _, rfl, rfl, ?_⟩
    rw [Segment_chain _ _ _ (Segment_capture_class 2 false [('0', '9')])]
    refine ⟨w, _, ⟨hw.1, fun c hc => by rw [inClass_digit]; exact hw.2 c hc⟩, rfl, ?_⟩
    rw [Segment_chain _ _ _ (Segment_literal 'x')]
    refine ⟨_, _, rfl, rfl, ?_⟩
    rw [Segment_chain _ _ _ (Segment_capture_class 3 false [('0', '9')])]
    refine ⟨h, _, ⟨hh.1, fun c hc => by rw [inClass_digit]; exact hh.2 c hc⟩, rfl, ?_⟩
    rw [Segment_chain _ _ _ (Segment_literal '/')]
    refine ⟨_, _, rfl, rfl, ?_⟩
    rw [Segment_chain _ _ _ (Segment_capture_class 4 true [('/', '/')])]
    refine ⟨text, _, ⟨htext.1, (all_not_slash text).mpr htext.2⟩, rfl, ?_⟩
    rw [Segment_chain _ _ _ (Segment_literal '.')]
    refine ⟨_, _, rfl, rfl, ?_⟩
    rw [Segment_chain _ _ _ Segment_capture_format]
    refine ⟨fmt, [], hfmt, by simp, ?_⟩
    rw [mem_run_endText]
    refine ⟨rfl, ?_⟩
    simp only [regexp.Thread.mk.injEq, and_true, true_and]
    rw [hpath]
    simp
    omega

theorem barcodeExpr_anchored (t : regexp.Thread) (h : 0 < t.pos) : barcodeExpr.run t = [] := by
  apply List.eq_nil_iff_forall_not_mem.mpr
  intro u hu
  obtain ⟨pos, rest, caps⟩ := t
  rw [mem_run_barcodeExpr] at hu
  simp only at h
  omega

/-- A barcode path has only one decomposition into its five fields. -/
theorem BarcodePath_unique (path s₁ w₁ h₁ t₁ f₁ s₂ w₂ h₂ t₂ f₂ : List Char)
    (p₁ : BarcodePath path s₁ w₁ h₁ t₁ f₁) (p₂ : BarcodePath path s₂ w₂ h₂ t₂ f₂) :
    s₁ = s₂ ∧ w₁ = w₂ ∧ h₁ = h₂ ∧ t₁ = t₂ ∧ f₁ = f₂ := by
  obtain ⟨hs₁, hw₁, hh₁, ht₁, hf₁, e₁⟩ := p₁
  obtain ⟨hs₂, hw₂, hh₂, ht₂, hf₂, e₂⟩ := p₂
  have hsym : ∀ s ∈ symbologies, '/' ∉ s := by
    intro s hs
    simp only [symbologies, List.mem_cons, List.mem_singleton, List.not_mem_nil, or_false] at hs
    rcases hs with h | h | h | h <;> subst h <;> decide
  have hdig : ∀ (c : Char) (w : List Char), strconv.isDigit c = false →
      (∀ x ∈ w, strconv.isDigit x = true) → c ∉ w := by
    intro c w hc hall hm
    rw [hall c hm] at hc
    exact absurd hc (by decide)
  have e := e₁.symm.trans e₂
  have hslash : "/".toList = ['/'] := rfl
  have hx : "x".toList = ['x'] := rfl
  have hdot : ".".toList = ['.'] := rfl
  simp only [hslash, hx, hdot, List.append_assoc, List.append_cancel_left_eq, List.singleton_append]
    at e
  obtain ⟨a1, e⟩ := append_sep_inj '/' _ _ _ _ (hsym _ hs₁) (hsym _ hs₂) e
  obtain ⟨a2, e⟩ := append_sep_inj 'x' _ _ _ _ (hdig _ _ (by decide) hw₁.2)
    (hdig _ _ (by decide) hw₂.2) e
  obtain ⟨a3, e⟩ := append_sep_inj '/' _ _ _ _ (hdig _ _ (by decide) hh₁.2)
    (hdig _ _ (by decide) hh₂.2) e
  have e : t₁ ++ '.' :: f₁ = t₂ ++ '.' :: f₂ := e
  have hl := congrArg List.length e
  simp only [List.length_append, List.length_cons, format_length _ hf₁, format_length _ hf₂] at hl
  have htl : t₁.length = t₂.length := by omega
  obtain ⟨a4, e⟩ := List.append_inj e htl
  have a5 : f₁ = f₂ := by simpa using e
  exact ⟨a1, a2, a3, a4, a5⟩

/-- On the barcode pattern `FindStringSubmatch` succeeds exactly on the barcode paths, and
then returns the path followed by its five fields. -/
theorem FindStringSubmatch_barcode (path : List Char) :
    (∀ whole fields,
      regexp.Regexp.FindStringSubmatch { expr := barcodeExpr, numSubexp := 5 } path = whole :: fields →
      whole = path ∧ ∃ sym w h text fmt, BarcodePath path sym w h text fmt ∧
        fields = [sym, w, h, text, fmt]) ∧
    (∀ sym w h text fmt, BarcodePath path sym w h text fmt →
      regexp.Regexp.FindStringSubmatch { expr := barcodeExpr, numSubexp := 5 } path =
        [path, sym, w, h, text, fmt]) := by
  have key : ∀ t, (barcodeExpr.run { pos := 0, rest := path, caps := List.replicate 5 [] }).head?
      = some t → ∃ sym w h text fmt, BarcodePath path sym w h text fmt ∧
        t = { pos := path.length, rest := [], caps := [sym, w, h, text, fmt] } := by
    intro t ht
    have hm : t ∈ barcodeExpr.run { pos := 0, rest := path, caps := List.replicate 5 [] } :=
      List.mem_of_mem_head? ht
    rw [mem_run_barcodeExpr] at hm
    obtain ⟨_, sym, w, h, text, fmt, hp, rfl⟩ := hm
    exact ⟨sym, w, h, text, fmt, hp, rfl⟩
  rw [FindStringSubmatch_anchored barcodeExpr 5 barcodeExpr_anchored path]
  constructor
  · intro whole fields hres
    cases hh : (barcodeExpr.run { pos := 0, rest := path, caps := List.replicate 5 [] }).head? with
    | none => rw [hh] at hres; simp at hres
    | some t =>
      rw [hh] at hres
      obtain ⟨sym, w, h, text, fmt, hp, rfl⟩ := key t hh
      simp only [List.cons.injEq, List.take_length] at hres
      exact ⟨hres.1.symm, sym, w, h, text, fmt, hp, hres.2.symm⟩
  · intro sym w h text fmt hp
    cases hh : (barcodeExpr.run { pos := 0, rest := path, caps := List.replicate 5 [] }).head? with
    | none =>
      exfalso
      have hm : (⟨path.length, [], [sym, w, h, text, fmt]⟩ : regexp.Thread) ∈
          barcodeExpr.run { pos := 0, rest := path, caps := List.replicate 5 [] } := by
        rw [mem_run_barcodeExpr]
        exact ⟨rfl, sym, w, h, text, fmt, hp, rfl⟩
      rw [List.head?_eq_none_iff] at hh
      rw [hh] at hm
      cases hm
    | some t =>
      obtain ⟨sym', w', h', text', fmt', hp', rfl⟩ := key t hh
      obtain ⟨rfl, rfl, rfl, rfl, rfl⟩ := BarcodePath_unique path sym w h text fmt sym' w' h' text' fmt' hp hp'
      simp

/-- The paths the barcode route matches are exactly the barcode paths. -/
theorem barcodeRoute_matchesPath_iff {Img : Type} (env : Collaborators Img) (path : List Char) :
    (barcodeRoute env).matchesPath path ↔ ∃ sym w h text fmt, BarcodePath path sym w h text fmt := by
  unfold route.matchesPath barcodeRoute
  simp only []
  constructor
  · intro h
    cases hres : regexp.Regexp.FindStringSubmatch { expr := barcodeExpr, numSubexp := 5 } path with
    | nil => rw [hres] at h; simp at h
    | cons whole fields =>
      obtain ⟨_, sym, w, h', text, fmt, hp, _⟩ := (FindStringSubmatch_barcode path).1 whole fields hres
      exact ⟨sym, w, h', text, fmt, hp⟩
  · rintro ⟨sym, w, h, text, fmt, hp⟩
    rw [(FindStringSubmatch_barcode path).2 sym w h text fmt hp]
    simp

/-! ## The registered table -/

theorem favicon_not_barcode (path : List Char)
    (hb : ∃ sym w h text fmt, BarcodePath path sym w h text fmt) :
    ¬ faviconRoute.matchesPath path := by
  rw [faviconRoute_matchesPath_iff]
  rintro ⟨c, _, hc⟩
  obtain ⟨sym, w, h, text, fmt, _, _, _, _, _, hp⟩ := hb
  rw [hp] at hc
  have h1 : ("/barcode/".toList ++ sym ++ "/".toList ++ w ++ "x".toList ++ h ++ "/".toList ++ text ++
      ".".toList ++ fmt).get? 1 = some 'b' := by
    simp only [List.append_assoc]
    rfl
  rw [hc] at h1
  simp only [List.append_assoc] at h1
  have h2 : ("/favicon".toList ++ ([c] ++ "ico".toList)).get? 1 = some 'f' := rfl
  rw [h2] at h1
  exact absurd h1 (by decide)

/-- A `GET` request for a barcode path is handed to `getBarcode` with the five fields of
the path in the request context. -/
theorem Serve_barcode_path {Img : Type} (env : Collaborators Img) (w : World) (r : http.Request)
    (sym wd h text fmt : List Char) (hm : r.Method = "GET".toList)
    (hp : BarcodePath r.Path sym wd h text fmt) :
    Serve [faviconRoute, barcodeRoute env] w r =
      ([{ route := barcodeRoute env, fields := [sym, wd, h, text, fmt] }],
        getBarcode env w (r.WithContext [sym, wd, h, text, fmt])) := by
  have hsel : (barcodeRoute env).selects r :=
    ⟨(barcodeRoute_matchesPath_iff env r.Path).mpr ⟨sym, wd, h, text, fmt, hp⟩, hm.symm⟩
  have hpre : ∀ x ∈ [faviconRoute], ¬ x.selects r := by
    intro x hx hs
    rw [List.mem_singleton] at hx
    subst hx
    exact favicon_not_barcode r.Path ⟨sym, wd, h, text, fmt, hp⟩ hs.1
  have key := ServeLoop_hit w r (barcodeRoute env) hsel [faviconRoute] hpre [] []
  have hres : (barcodeRoute env).regex.FindStringSubmatch r.Path = [r.Path, sym, wd, h, text, fmt] :=
    (FindStringSubmatch_barcode r.Path).2 sym wd h text fmt hp
  rw [hres] at key
  exact key

/-- On the registered table a request is answered 404 exactly when its path is neither
`/favicon`, one character other than a newline, `ico`, nor a barcode path. -/
theorem Serve_registered_404_iff {Img : Type} (env : Collaborators Img) (r : http.Request) :
    ((Serve [faviconRoute, barcodeRoute env] World.fresh r).1 = [] ∧
      (Serve [faviconRoute, barcodeRoute env] World.fresh r).2.answer = some 404 ∧
      (Serve [faviconRoute, barcodeRoute env] World.fresh r).2.w.header.lookup "Allow".toList = none) ↔
    (¬ ∃ c, c ≠ Char.ofNat 10 ∧ r.Path = "/favicon".toList ++ [c] ++ "ico".toList) ∧
    ¬ ∃ sym w h text fmt, BarcodePath r.Path sym w h text fmt := by
  rw [Serve_404_iff]
  simp only [List.mem_cons, List.mem_singleton, List.not_mem_nil, or_false, forall_eq_or_imp,
    forall_eq, faviconRoute_matchesPath_iff, barcodeRoute_matchesPath_iff]

/-- C8: the path `/faviconXico` is neither `/favicon.ico` nor a barcode path, and it is not
answered 404: the `.` of the pattern `/favicon.ico` is not escaped and matches any
character, so `GET /faviconXico` runs `faviconNoContent` (204) and any other method is
answered 405. The other paths named in the claim are answered 404. -/
theorem Serve_faviconXico {Img : Type} (env : Collaborators Img) :
    routes env = some [faviconRoute, barcodeRoute env] ∧
    "/faviconXico".toList ≠ "/favicon.ico".toList ∧
    (¬ ∃ sym w h text fmt, BarcodePath "/faviconXico".toList sym w h text fmt) ∧
    (Serve [faviconRoute, barcodeRoute env] World.fresh (plainRequest "GET" "/faviconXico")).2.answer
      = some 204 ∧
    (Serve [faviconRoute, barcodeRoute env] World.fresh (plainRequest "POST" "/faviconXico")).2.answer
      = some 405 ∧
    (∀ path ∈ ["/x/favicon.ico", "/favicon.ico/extra", "/barcode/code39/1x1/a.png/extra"],
      (Serve [faviconRoute, barcodeRoute env] World.fresh (plainRequest "GET" path)).2.answer
        = some 404) := by
  have hnb : ¬ (barcodeRoute env).matchesPath "/faviconXico".toList := by
    show ¬ 0 < (regexp.Regexp.FindStringSubmatch { expr := barcodeExpr, numSubexp := 5 }
      "/faviconXico".toList).length
    decide
  have hfav : faviconRoute.matchesPath "/faviconXico".toList := by decide
  refine ⟨routes_eq env, by decide, ?_, ?_, ?_, ?_⟩
  · rw [← barcodeRoute_matchesPath_iff env]
    exact hnb
  · have key := ServeLoop_hit World.fresh (plainRequest "GET" "/faviconXico") faviconRoute
      ⟨hfav, rfl⟩ [] (by simp) [barcodeRoute env] []
    unfold Serve
    rw [List.nil_append] at key
    rw [key]
    decide
  · refine (Serve_mismatch [faviconRoute, barcodeRoute env] (plainRequest "POST" "/faviconXico")
      ⟨faviconRoute, List.mem_cons_self _ _, hfav⟩ ?_).2.2.1
    intro rt hrt _
    simp only [List.mem_cons, List.mem_singleton, List.not_mem_nil, or_false] at hrt
    rcases hrt with h | h <;> subst h
    · decide
    · show "GET".toList ≠ "POST".toList
      decide
  · intro path hpath
    have h404 : ∀ p : String, ¬ faviconRoute.matchesPath p.toList →
        ¬ (regexp.Regexp.FindStringSubmatch { expr := barcodeExpr, numSubexp := 5 } p.toList).length > 0 →
        (Serve [faviconRoute, barcodeRoute env] World.fresh (plainRequest "GET" p)).2.answer = some 404 := by
      intro p h1 h2
      refine ((Serve_404_iff [faviconRoute, barcodeRoute env] (plainRequest "GET" p)).mpr ?_).2.1
      intro rt hrt
      simp only [List.mem_cons, List.mem_singleton, List.not_mem_nil, or_false] at hrt
      rcases hrt with h | h <;> subst h
      · exact h1
      · exact h2
    simp only [List.mem_cons, List.mem_singleton, List.not_mem_nil, or_false] at hpath
    rcases hpath with h | h | h <;> subst h <;> exact h404 _ (by decide) (by decide)

end Api
